import Mathlib

/-!
Deployment arguments of control-tower: flag tracking and validation.

A shallow embedding of `commands/deploy/deploy_args.go` (package `deploy`).

* Go strings are modelled by `String` (sequences of Unicode scalar values, i.e. the valid
  UTF-8 strings); `[]string` by `List String`; `int` by `Int`.
* A function returning `error` returns `Ret`: `nil`, an error with its `Error()` text, or a
  run-time panic (slice index out of range).
* A method with pointer receiver (`MarkSetFlags`) takes the overlay and returns the overlay
  it leaves behind together with its result.
* Library code outside the repository whose behaviour depends on Unicode tables or on whole
  packages (`unicode.ToLower` and `strconv.IsPrint` beyond ASCII/Latin-1, `pem.Decode`,
  `govalidator.IsDNSName`) is a parameter, `GoLib`.
* Regular expressions are abstract syntax trees run by a derivative matcher.
-/

namespace Deploy

/-! ## Results -/

/-- Result of a Go function whose only result is an `error`. -/
inductive Ret where
  /-- The function returned `nil`. -/
  | nil
  /-- The function returned a non-nil error whose `Error()` text is `msg`. -/
  | err (msg : String)
  /-- The function did not return: a slice index was out of range. -/
  | panic
deriving DecidableEq, Repr

/-- Library behaviour that lies outside the repository and is left open. -/
structure GoLib where
  /-- The map `unicode.ToLower` on runes above U+007F. -/
  toLowerRune : Char → Char
  /-- The predicate `strconv.IsPrint` on runes above U+00FF. -/
  isPrintRune : Char → Bool
  /-- Whether `pem.Decode` finds a block in the bytes of the string. -/
  pemDecodes : String → Bool
  /-- The predicate `govalidator.IsDNSName`. -/
  isDNSName : String → Bool

/-! ## The `strings`, `strconv` and `fmt` functions the package calls -/

/-- The map `unicode.ToLower`: on ASCII the letters `A`..`Z` move to `a`..`z` and every other
rune stays; above ASCII the library table decides. -/
def toLowerRune (lib : GoLib) (c : Char) : Char :=
  if c.toNat < 0x80 then
    (if 'A' ≤ c ∧ c ≤ 'Z' then Char.ofNat (c.toNat + 32) else c)
  else lib.toLowerRune c

/-- The function `strings.ToLower`. -/
def ToLower (lib : GoLib) (s : String) : String :=
  String.mk (s.data.map (toLowerRune lib))

/-- The predicate `unicode.IsSpace`: the Latin-1 spaces `\t \n \v \f \r`, space, U+0085,
U+00A0, and the other code points with the `White_Space` property. -/
def IsSpace (c : Char) : Bool :=
  let n := c.toNat
  (0x09 ≤ n && n ≤ 0x0D) || n == 0x20 || n == 0x85 || n == 0xA0 || n == 0x1680 ||
  (0x2000 ≤ n && n ≤ 0x200A) || n == 0x2028 || n == 0x2029 || n == 0x202F || n == 0x205F ||
  n == 0x3000

/-- The function `strings.TrimSpace`: the string without its leading and trailing white
space. -/
def TrimSpace (s : String) : String :=
  String.mk ((s.data.dropWhile IsSpace).rdropWhile IsSpace)

/-- Worker of `Split`: `cur` holds, reversed, the runes of the piece being read. -/
def splitAux (sep : Char) : List Char → List Char → List String
  | cur, [] => [String.mk cur.reverse]
  | cur, c :: cs =>
    if c = sep then String.mk cur.reverse :: splitAux sep [] cs
    else splitAux sep (c :: cur) cs

/-- The function `strings.Split(s, sep)` for a separator of one rune (the package splits on
`","` and `":"`): the pieces of `s` between the separators, in order. -/
def Split (s : String) (sep : Char) : List String :=
  splitAux sep [] s.data

/-- The digit `lowerhex[n]` of `strconv`. -/
def lowerhex (n : Nat) : Char :=
  "0123456789abcdef".data.getD (n % 16) '0'

/-- The predicate `strconv.IsPrint`: up to U+00FF it is `0x20..0x7E` and `0xA1..0xFF` without
U+00AD; above, the library table decides. -/
def IsPrint (lib : GoLib) (c : Char) : Bool :=
  let n := c.toNat
  if n ≤ 0xFF then
    (0x20 ≤ n && n ≤ 0x7E) || (0xA1 ≤ n && n != 0xAD)
  else lib.isPrintRune c

/-- What `strconv.Quote` writes for one rune (`appendEscapedRune` with the quote `"`). -/
def quoteRune (lib : GoLib) (c : Char) : List Char :=
  let n := c.toNat
  if c = '"' ∨ c = '\\' then ['\\', c]
  else if IsPrint lib c then [c]
  else if n = 0x07 then ['\\', 'a']
  else if n = 0x08 then ['\\', 'b']
  else if n = 0x0C then ['\\', 'f']
  else if n = 0x0A then ['\\', 'n']
  else if n = 0x0D then ['\\', 'r']
  else if n = 0x09 then ['\\', 't']
  else if n = 0x0B then ['\\', 'v']
  else if n < 0x20 ∨ n = 0x7F then ['\\', 'x', lowerhex (n / 16), lowerhex n]
  else if n < 0x10000 then
    ['\\', 'u', lowerhex (n / 4096), lowerhex (n / 256), lowerhex (n / 16), lowerhex n]
  else
    ['\\', 'U', lowerhex (n / 268435456), lowerhex (n / 16777216), lowerhex (n / 1048576),
      lowerhex (n / 65536), lowerhex (n / 4096), lowerhex (n / 256), lowerhex (n / 16),
      lowerhex n]

/-- The function `strconv.Quote`, which is how `fmt` prints a string under the verb `%q`. -/
def Quote (lib : GoLib) (s : String) : String :=
  String.mk ('"' :: (s.data.map (quoteRune lib)).flatten ++ ['"'])

/-- How `fmt` prints a `[]string` under the verb `%v`: the elements between brackets,
separated by one space. -/
def fmtStrings (l : List String) : String :=
  "[" ++ " ".intercalate l ++ "]"

/-! ## Regular expressions -/

/-- Abstract syntax of the regular expressions the package compiles. `empty` matches nothing
and only arises as a derivative. -/
inductive Regex where
  | empty
  /-- The empty string. -/
  | eps
  /-- The assertion `^`: beginning of the text. -/
  | bol
  /-- The assertion `$`: end of the text (Go compiles without the multi-line flag). -/
  | eol
  /-- One rune of a class. -/
  | cls (p : Char → Bool)
  | cat (r s : Regex)
  | alt (r s : Regex)
  | star (r : Regex)

namespace Regex

/-- A literal rune. -/
def lit (c : Char) : Regex := cls (fun x => x == c)

/-- The repetition `r+`. -/
def plus (r : Regex) : Regex := cat r (star r)

/-- Whether `r` matches the empty string at a position that is the beginning of the text iff
`pre`, and the end of the text iff `post`. -/
def nullable (pre post : Bool) : Regex → Bool
  | empty => false
  | eps => true
  | bol => pre
  | eol => post
  | cls _ => false
  | cat r s => nullable pre post r && nullable pre post s
  | alt r s => nullable pre post r || nullable pre post s
  | star _ => true

/-- Derivative of `r` by the rune `c`, read at a position that is the beginning of the text
iff `pre`: what remains to be matched after `c`. -/
def deriv (pre : Bool) (c : Char) : Regex → Regex
  | empty => empty
  | eps => empty
  | bol => empty
  | eol => empty
  | cls p => if p c then eps else empty
  | cat r s =>
    alt (cat (deriv pre c r) s) (if nullable pre false r then deriv pre c s else empty)
  | alt r s => alt (deriv pre c r) (deriv pre c s)
  | star r => cat (deriv pre c r) (star r)

/-- Whether `r` matches exactly the runes `w`, a stretch of the text that starts at the
beginning of the text iff `pre` and stops at its end iff `post`. -/
def matchSpan (r : Regex) (pre : Bool) (w : List Char) (post : Bool) : Bool :=
  match w with
  | [] => nullable pre post r
  | c :: cs => matchSpan (deriv pre c r) false cs post

/-- Whether `r` matches some prefix of the rest `s` of the text. -/
def matchHead (r : Regex) (pre : Bool) (s : List Char) : Bool :=
  match s with
  | [] => nullable pre true r
  | c :: cs => nullable pre false r || matchHead (deriv pre c r) false cs

/-- Whether `r` matches somewhere in the rest `s` of the text. -/
def matchFrom (r : Regex) (pre : Bool) (s : List Char) : Bool :=
  match s with
  | [] => matchHead r pre []
  | c :: cs => matchHead r pre (c :: cs) || matchFrom r false cs

/-- The method `(*Regexp).MatchString`: whether the text contains any match of `r`. -/
def MatchString (r : Regex) (s : String) : Bool :=
  matchFrom r true s.data

/-- The longest prefix of the rest `s` of the text that `r` matches, if there is one. -/
def findHead (r : Regex) (pre : Bool) (s : List Char) : Option (List Char) :=
  match s with
  | [] => if nullable pre true r then some [] else none
  | c :: cs =>
    match findHead (deriv pre c r) false cs with
    | some w => some (c :: w)
    | none => if nullable pre false r then some [] else none

/-- The leftmost match of `r` in the rest `s` of the text, if there is one. -/
def findFrom (r : Regex) (pre : Bool) (s : List Char) : Option (List Char) :=
  match s with
  | [] => findHead r pre []
  | c :: cs =>
    match findHead r pre (c :: cs) with
    | some w => some w
    | none => findFrom r false cs

/-- The method `(*Regexp).FindString`: the text of the leftmost match of `r`, and `""` when
there is none. Among the matches that start leftmost this takes the longest; Go takes the
one its leftmost-first rule prefers. The package calls `FindString` only with expressions of
the shape `^...$`, whose every match is the whole text, so that the two agree there. -/
def FindString (r : Regex) (s : String) : String :=
  match findFrom r true s.data with
  | some w => String.mk w
  | none => ""

/-- The class `[a-zA-Z0-9]`. -/
def alnum (c : Char) : Bool :=
  ('a' ≤ c && c ≤ 'z') || ('A' ≤ c && c ≤ 'Z') || ('0' ≤ c && c ≤ '9')

/-- The class `[a-zA-Z0-9-]`. -/
def alnumDash (c : Char) : Bool :=
  alnum c || c == '-'

/-- The Perl class `\w`, which in Go is `[0-9A-Za-z_]`. -/
def word (c : Char) : Bool :=
  ('0' ≤ c && c ≤ '9') || ('A' ≤ c && c ≤ 'Z') || ('a' ≤ c && c ≤ 'z') || c == '_'

end Regex

open Regex

/-- The expression `^m5$|^m5a$|^m4$` of `validateWorkerFields`. -/
def workerTypeRe : Regex :=
  alt (alt (cat bol (cat (lit 'm') (cat (lit '5') eol)))
           (cat bol (cat (lit 'm') (cat (lit '5') (cat (lit 'a') eol)))))
      (cat bol (cat (lit 'm') (cat (lit '4') eol)))

/-- The expression `\w+=\w+` of `validateTags`. -/
def tagRe : Regex :=
  cat (plus (cls word)) (cat (lit '=') (plus (cls word)))

/-- The expression `^[a-zA-Z0-9][a-zA-Z0-9-]*$` of `validateMainAuthFlags`. -/
def userAndOrgRe : Regex :=
  cat bol (cat (cls alnum) (cat (star (cls alnumDash)) eol))

/-- The expression `^[a-zA-Z0-9-]+$` of `validateMainAuthFlags`. -/
def teamRe : Regex :=
  cat bol (cat (plus (cls alnumDash)) eol)

/-! ## The overlay and the flag-set checker -/

/-- The struct `Args`: the arguments passed to the deploy command, each value with its
explicitly-set boolean. The defaults are Go's zero values. -/
structure Args where
  IAAS : String := ""
  IAASIsSet : Bool := false
  Region : String := ""
  RegionIsSet : Bool := false
  Domain : String := ""
  DomainIsSet : Bool := false
  TLSCert : String := ""
  TLSCertIsSet : Bool := false
  TLSKey : String := ""
  TLSKeyIsSet : Bool := false
  WorkerCount : Int := 0
  WorkerCountIsSet : Bool := false
  WorkerSize : String := ""
  WorkerSizeIsSet : Bool := false
  WebSize : String := ""
  WebSizeIsSet : Bool := false
  PersistentDiskSize : String := ""
  PersistentDiskIsSet : Bool := false
  SelfUpdate : Bool := false
  SelfUpdateIsSet : Bool := false
  DBSize : String := ""
  DBSizeIsSet : Bool := false
  RDSDiskEncryption : Bool := false
  RDSDiskEncryptionIsSet : Bool := false
  EnableGlobalResources : Bool := false
  EnableGlobalResourcesIsSet : Bool := false
  EnablePipelineInstances : Bool := false
  EnablePipelineInstancesIsSet : Bool := false
  InfluxDbRetention : String := ""
  InfluxDbRetentionIsSet : Bool := false
  Namespace : String := ""
  NamespaceIsSet : Bool := false
  AllowIPs : String := ""
  AllowIPsIsSet : Bool := false
  BitbucketAuthClientID : String := ""
  BitbucketAuthClientIDIsSet : Bool := false
  BitbucketAuthClientSecret : String := ""
  BitbucketAuthClientSecretIsSet : Bool := false
  BitbucketAuthIsSet : Bool := false
  GithubAuthClientID : String := ""
  GithubAuthClientIDIsSet : Bool := false
  GithubAuthClientSecret : String := ""
  GithubAuthClientSecretIsSet : Bool := false
  GithubAuthIsSet : Bool := false
  GithubAuthHost : String := ""
  GithubAuthHostIsSet : Bool := false
  GithubAuthCaCert : String := ""
  GithubAuthCaCertIsSet : Bool := false
  GithubEnterpriseAuthIsSet : Bool := false
  MainGithubUsers : String := ""
  MainGithubUsersIsSet : Bool := false
  MainGithubTeams : String := ""
  MainGithubTeamsIsSet : Bool := false
  MainGithubOrgs : String := ""
  MainGithubOrgsIsSet : Bool := false
  MainGithubAuthIsSet : Bool := false
  MicrosoftAuthClientID : String := ""
  MicrosoftAuthClientIDIsSet : Bool := false
  MicrosoftAuthClientSecret : String := ""
  MicrosoftAuthClientSecretIsSet : Bool := false
  MicrosoftAuthTenant : String := ""
  MicrosoftAuthTenantIsSet : Bool := false
  MicrosoftAuthIsSet : Bool := false
  NoMetrics : Bool := false
  NoMetricsIsSet : Bool := false
  Tags : List String := []
  TagsIsSet : Bool := false
  Spot : Bool := false
  SpotIsSet : Bool := false
  Zone : String := ""
  ZoneIsSet : Bool := false
  WorkerType : String := ""
  WorkerTypeIsSet : Bool := false
  NetworkCIDR : String := ""
  NetworkCIDRIsSet : Bool := false
  PublicCIDR : String := ""
  PublicCIDRIsSet : Bool := false
  PrivateCIDR : String := ""
  PrivateCIDRIsSet : Bool := false
  RDS1CIDR : String := ""
  RDS1CIDRIsSet : Bool := false
  RDS2CIDR : String := ""
  RDS2CIDRIsSet : Bool := false
deriving DecidableEq, Repr

/-- The interface `FlagSetChecker`: which flags the user provided, and the names of all
flags. -/
structure FlagSetChecker where
  IsSet : String → Bool
  FlagNames : List String

/-! ## `MarkSetFlags` -/

/-- The `switch f` of `MarkSetFlags`: the overlay after the assignment of the case that `f`
selects, and `none` in the `default` case. -/
def markFlag (a : Args) (f : String) : Option Args :=
  match f with
  | "region" => some { a with RegionIsSet := true }
  | "enable-global-resources" => some { a with EnableGlobalResourcesIsSet := true }
  | "enable-pipeline-instances" => some { a with EnablePipelineInstancesIsSet := true }
  | "influxdb-retention-period" => some { a with InfluxDbRetentionIsSet := true }
  | "domain" => some { a with DomainIsSet := true }
  | "tls-cert" => some { a with TLSCertIsSet := true }
  | "tls-key" => some { a with TLSKeyIsSet := true }
  | "workers" => some { a with WorkerCountIsSet := true }
  | "worker-size" => some { a with WorkerSizeIsSet := true }
  | "web-size" => some { a with WebSizeIsSet := true }
  | "persistent-disk" => some { a with PersistentDiskIsSet := true }
  | "iaas" => some { a with IAASIsSet := true }
  | "self-update" => some { a with SelfUpdateIsSet := true }
  | "db-size" => some { a with DBSizeIsSet := true }
  | "rds-disk-encryption" => some { a with RDSDiskEncryptionIsSet := true }
  | "spot" | "preemptible" => some { a with SpotIsSet := true }
  | "allow-ips" => some { a with AllowIPsIsSet := true }
  | "bitbucket-auth-client-id" => some { a with BitbucketAuthClientIDIsSet := true }
  | "bitbucket-auth-client-secret" => some { a with BitbucketAuthClientSecretIsSet := true }
  | "github-auth-client-id" => some { a with GithubAuthClientIDIsSet := true }
  | "github-auth-client-secret" => some { a with GithubAuthClientSecretIsSet := true }
  | "github-auth-host" => some { a with GithubAuthHostIsSet := true }
  | "github-auth-ca-cert" => some { a with GithubAuthCaCertIsSet := true }
  | "main-team-github-users" => some { a with MainGithubUsersIsSet := true }
  | "main-team-github-teams" => some { a with MainGithubTeamsIsSet := true }
  | "main-team-github-orgs" => some { a with MainGithubOrgsIsSet := true }
  | "microsoft-auth-client-id" => some { a with MicrosoftAuthClientIDIsSet := true }
  | "microsoft-auth-client-secret" => some { a with MicrosoftAuthClientSecretIsSet := true }
  | "microsoft-auth-tenant" => some { a with MicrosoftAuthTenantIsSet := true }
  | "add-tag" => some { a with TagsIsSet := true }
  | "namespace" => some { a with NamespaceIsSet := true }
  | "zone" => some { a with ZoneIsSet := true }
  | "worker-type" => some { a with WorkerTypeIsSet := true }
  | "vpc-network-range" => some { a with NetworkCIDRIsSet := true }
  | "public-subnet-range" => some { a with PublicCIDRIsSet := true }
  | "private-subnet-range" => some { a with PrivateCIDRIsSet := true }
  | "rds-subnet-range1" => some { a with RDS1CIDRIsSet := true }
  | "rds-subnet-range2" => some { a with RDS2CIDRIsSet := true }
  | "no-metrics" => some { a with NoMetricsIsSet := true }
  | _ => none

/-- The `for _, f := range c.FlagNames()` loop of `MarkSetFlags` over the names still to be
visited: the overlay it leaves and `nil` when it runs to its end, the error when the
`default` case returns. -/
def markLoop (lib : GoLib) (c : FlagSetChecker) : List String → Args → Args × Ret
  | [], a => (a, Ret.nil)
  | f :: fs, a =>
    if c.IsSet f then
      match markFlag a f with
      | some a1 => markLoop lib c fs a1
      | none => (a, Ret.err ("flag " ++ Quote lib f ++ " is not supported by deployment flags"))
    else markLoop lib c fs a

/-- The method `(a *Args) MarkSetFlags(c FlagSetChecker) error`: the overlay it leaves behind
and its result. -/
def MarkSetFlags (lib : GoLib) (a : Args) (c : FlagSetChecker) : Args × Ret :=
  match markLoop lib c c.FlagNames a with
  | (a1, Ret.nil) =>
    ({ a1 with
        BitbucketAuthIsSet :=
          c.IsSet "bitbucket-auth-client-id" && c.IsSet "bitbucket-auth-client-secret"
        GithubAuthIsSet := c.IsSet "github-auth-client-id" && c.IsSet "github-auth-client-secret"
        GithubEnterpriseAuthIsSet := c.IsSet "github-auth-host" && c.IsSet "github-auth-ca-cert"
        MicrosoftAuthIsSet :=
          c.IsSet "microsoft-auth-client-id" && c.IsSet "microsoft-auth-client-secret"
        MainGithubAuthIsSet :=
          c.IsSet "main-team-github-users" || c.IsSet "main-team-github-teams" ||
            c.IsSet "main-team-github-orgs" },
      Ret.nil)
  | r => r

/-! ## The validation rules -/

/-- The permitted concourse worker sizes. -/
def WorkerSizes : List String :=
  ["medium", "large", "xlarge", "2xlarge", "4xlarge", "12xlarge", "24xlarge"]

/-- The permitted concourse web sizes. -/
def WebSizes : List String := ["small", "medium", "large", "xlarge", "2xlarge"]

/-- The permitted concourse persistent disk sizes. -/
def PersistentDiskSizes : List String := ["small", "default", "medium", "large"]

/-- The valid values for the `--db-size` flag. -/
def AllowedDBSizes : List String := ["small", "medium", "large", "xlarge", "2xlarge", "4xlarge"]

/-- The loop `for _, size := range sizes { if size == v { return nil } }` of the size rules:
whether it returns. -/
def sizeListed (v : String) : List String → Bool
  | [] => false
  | size :: rest => if size = v then true else sizeListed v rest

/-- The statement `if err := f(); err != nil { return err }` followed by the rest `k` of the
function. -/
def Ret.andThen (r : Ret) (k : Ret) : Ret :=
  match r with
  | Ret.nil => k
  | e => e

def validateCertFields (a : Args) : Ret :=
  if a.TLSKey ≠ "" ∧ a.TLSCert = "" then
    Ret.err "--tls-key requires --tls-cert to also be provided"
  else if a.TLSCert ≠ "" ∧ a.TLSKey = "" then
    Ret.err "--tls-cert requires --tls-key to also be provided"
  else if (a.TLSKey ≠ "" ∨ a.TLSCert ≠ "") ∧ a.Domain = "" then
    Ret.err "custom certificates require --domain to be provided"
  else Ret.nil

def validateWorkerFields (lib : GoLib) (a : Args) : Ret :=
  if a.WorkerCount < 1 then
    Ret.err "minimum number of workers is 1"
  else if a.WorkerTypeIsSet = true ∧ ToLower lib a.IAAS ≠ "aws" then
    Ret.err "worker-type is only defined on AWS"
  else if a.WorkerTypeIsSet = true ∧ workerTypeRe.MatchString a.WorkerType = false then
    Ret.err ("worker-type " ++ a.WorkerType ++ " is invalid: must be one of m4, m5, or m5a")
  else if sizeListed a.WorkerSize WorkerSizes then Ret.nil
  else
    Ret.err ("unknown worker size: `" ++ a.WorkerSize ++ "`. Valid sizes are: " ++
      fmtStrings WorkerSizes)

def validateWebFields (a : Args) : Ret :=
  if a.NoMetricsIsSet = true ∧ a.InfluxDbRetentionIsSet = true then
    Ret.err "no-metrics is invalid when used with influxdb-retention-period"
  else if sizeListed a.WebSize WebSizes then Ret.nil
  else
    Ret.err ("unknown web node size: `" ++ a.WebSize ++ "`. Valid sizes are: " ++
      fmtStrings WebSizes)

def validatePersistentDiskFields (a : Args) : Ret :=
  if sizeListed a.PersistentDiskSize PersistentDiskSizes then Ret.nil
  else
    Ret.err ("unknown persistent disk size: `" ++ a.PersistentDiskSize ++
      "`. Valid sizes are: " ++ fmtStrings PersistentDiskSizes)

def validateDBFields (a : Args) : Ret :=
  if sizeListed a.DBSize AllowedDBSizes then Ret.nil
  else
    Ret.err ("unknown DB size: `" ++ a.DBSize ++ "`. Valid sizes are: " ++
      fmtStrings AllowedDBSizes)

/-- The method `certParseable`: whether `pem.Decode` finds a block in the CA certificate. -/
def certParseable (lib : GoLib) (a : Args) : Bool :=
  lib.pemDecodes a.GithubAuthCaCert

def validateGithubFields (lib : GoLib) (a : Args) : Ret :=
  if a.GithubAuthClientID ≠ "" ∧ a.GithubAuthClientSecret = "" then
    Ret.err "--github-auth-client-id requires --github-auth-client-secret to also be provided"
  else if a.GithubAuthClientID = "" ∧ a.GithubAuthClientSecret ≠ "" then
    Ret.err "--github-auth-client-secret requires --github-auth-client-id to also be provided"
  else if a.GithubAuthHost ≠ "" ∧ (a.GithubAuthIsSet = false ∨ a.GithubAuthCaCert = "") then
    Ret.err "--github-auth-host requires --github-auth-ca-cert, --github-auth-client-id, --github-auth-client-secret to also be provided"
  else if a.GithubAuthCaCert ≠ "" ∧ (a.GithubAuthIsSet = false ∨ a.GithubAuthHost = "") then
    Ret.err "--github-auth-ca-cert requires --github-auth-host, --github-auth-client-id, --github-auth-client-secret to also be provided"
  else if a.GithubEnterpriseAuthIsSet = true ∧ certParseable lib a = false then
    Ret.err "unable to decode value passed to --github-auth-ca-cert. Provide a CA certificate in PEM format"
  else if a.GithubEnterpriseAuthIsSet = true ∧ lib.isDNSName a.GithubAuthHost = false then
    Ret.err "--github-auth-host must be a valid DNS address (omitting protocol)"
  else Ret.nil

def validateNetworkRanges (a : Args) : Ret :=
  if a.PublicCIDR ≠ "" ∨ a.PrivateCIDR ≠ "" then
    if a.PublicCIDR = "" ∨ a.PrivateCIDR = "" then
      Ret.err "both --public-subnet-range and --private-subnet-range are required when either is provided"
    else Ret.nil
  else Ret.nil

/-- The loop of `validateTags` over the tags still to be visited. -/
def validateTagsLoop : List String → Ret
  | [] => Ret.nil
  | tag :: rest =>
    if tagRe.MatchString tag = false then
      Ret.err ("`" ++ tag ++ "` is not in the format `key=value`")
    else validateTagsLoop rest

def validateTags (a : Args) : Ret :=
  validateTagsLoop a.Tags

/-- The loop of `validateMainAuthFlags` over the users still to be visited. -/
def validateUsersLoop (lib : GoLib) : List String → Ret
  | [] => Ret.nil
  | user :: rest =>
    if userAndOrgRe.FindString (TrimSpace user) = "" then
      Ret.err ("Invalid user " ++ Quote lib user ++ " provided to --main-team-github-users")
    else validateUsersLoop lib rest

/-- The loop of `validateMainAuthFlags` over the organizations still to be visited. -/
def validateOrgsLoop (lib : GoLib) : List String → Ret
  | [] => Ret.nil
  | org :: rest =>
    if userAndOrgRe.FindString (TrimSpace org) = "" then
      Ret.err ("Invalid org " ++ Quote lib org ++ " provided to --main-team-github-orgs")
    else validateOrgsLoop lib rest

/-- The body of the loop of `validateMainAuthFlags` over the teams, for one token: `nil` when
the loop goes on to the next token. The reads `parts[0]` and `parts[1]` panic when the index
is out of range. -/
def validateTeam (lib : GoLib) (orgTeam : String) : Ret :=
  let parts := Split orgTeam ':'
  match parts.get? 0 with
  | none => Ret.panic
  | some part0 =>
    let org := TrimSpace part0
    if parts.length ≠ 2 then
      Ret.err ("Invalid team " ++ Quote lib org ++ " does not contain org")
    else
      match parts.get? 1 with
      | none => Ret.panic
      | some part1 =>
        let team := TrimSpace part1
        if userAndOrgRe.FindString org = "" then
          Ret.err ("Invalid org " ++ Quote lib org ++ " provided for team " ++ Quote lib team ++
            " in --main-team-github-teams")
        else if teamRe.FindString team = "" then
          Ret.err ("Invalid team " ++ Quote lib orgTeam ++
            " provided to --main-team-github-teams")
        else Ret.nil

/-- The loop of `validateMainAuthFlags` over the teams still to be visited. -/
def validateTeamsLoop (lib : GoLib) : List String → Ret
  | [] => Ret.nil
  | orgTeam :: rest => (validateTeam lib orgTeam).andThen (validateTeamsLoop lib rest)

def validateMainAuthFlags (lib : GoLib) (a : Args) : Ret :=
  (if a.MainGithubUsersIsSet then validateUsersLoop lib (Split a.MainGithubUsers ',')
    else Ret.nil).andThen
  ((if a.MainGithubOrgsIsSet then validateOrgsLoop lib (Split a.MainGithubOrgs ',')
    else Ret.nil).andThen
  (if a.MainGithubTeamsIsSet then validateTeamsLoop lib (Split a.MainGithubTeams ',')
    else Ret.nil))

def validateMainAuth (lib : GoLib) (a : Args) : Ret :=
  (validateMainAuthFlags lib a).andThen Ret.nil

/-- The method `(a Args) Validate() error`. -/
def Validate (lib : GoLib) (a : Args) : Ret :=
  if a.IAASIsSet = false then Ret.err "--iaas flag not set"
  else
    (validateCertFields a).andThen <|
    (validateWorkerFields lib a).andThen <|
    (validateWebFields a).andThen <|
    (validatePersistentDiskFields a).andThen <|
    (validateDBFields a).andThen <|
    (validateGithubFields lib a).andThen <|
    (validateNetworkRanges a).andThen <|
    (validateTags a).andThen <|
    (if a.MainGithubAuthIsSet then (validateMainAuth lib a).andThen Ret.nil else Ret.nil)

/-! ## Definitions that state the specification -/

/-- A library for evaluating at concrete inputs: above ASCII no rune changes case, above
Latin-1 none is printable, no certificate decodes and no host name is valid. -/
def plainLib : GoLib :=
  ⟨fun c => c, fun _ => false, fun _ => false, fun _ => false⟩

/-- The results of the ten rules of `Validate` on an overlay, in the order of the
specification: required IAAS, cert pair, worker, web, persistent disk, database, GitHub
auth, network ranges, tags, main-team auth (which applies when `MainGithubAuthIsSet`). -/
def ruleResults (lib : GoLib) (a : Args) : List Ret :=
  [ if a.IAASIsSet = false then Ret.err "--iaas flag not set" else Ret.nil,
    validateCertFields a,
    validateWorkerFields lib a,
    validateWebFields a,
    validatePersistentDiskFields a,
    validateDBFields a,
    validateGithubFields lib a,
    validateNetworkRanges a,
    validateTags a,
    if a.MainGithubAuthIsSet then validateMainAuthFlags lib a else Ret.nil ]

/-- The result of the first rule that fails, and `nil` when none fails. -/
def firstFailure : List Ret → Ret
  | [] => Ret.nil
  | r :: rest => if r = Ret.nil then firstFailure rest else r

/-- A team token that is a valid `org:team` pair: it splits on `:` into exactly two parts,
the trimmed organization matches `^[a-zA-Z0-9][a-zA-Z0-9-]*$` and the trimmed team matches
`^[a-zA-Z0-9-]+$`. -/
def ValidOrgTeam (orgTeam : String) : Prop :=
  ∃ org team, Split orgTeam ':' = [org, team] ∧
    userAndOrgRe.MatchString (TrimSpace org) = true ∧ teamRe.MatchString (TrimSpace team) = true

/-- The primitive explicitly-set fields of the overlay, each with the flag names whose case
of the `switch` of `MarkSetFlags` assigns it, in the order of the cases. -/
def primitiveFlags : List (List String × (Args → Bool)) :=
  [
    (["region"], Args.RegionIsSet),
    (["enable-global-resources"], Args.EnableGlobalResourcesIsSet),
    (["enable-pipeline-instances"], Args.EnablePipelineInstancesIsSet),
    (["influxdb-retention-period"], Args.InfluxDbRetentionIsSet),
    (["domain"], Args.DomainIsSet),
    (["tls-cert"], Args.TLSCertIsSet),
    (["tls-key"], Args.TLSKeyIsSet),
    (["workers"], Args.WorkerCountIsSet),
    (["worker-size"], Args.WorkerSizeIsSet),
    (["web-size"], Args.WebSizeIsSet),
    (["persistent-disk"], Args.PersistentDiskIsSet),
    (["iaas"], Args.IAASIsSet),
    (["self-update"], Args.SelfUpdateIsSet),
    (["db-size"], Args.DBSizeIsSet),
    (["rds-disk-encryption"], Args.RDSDiskEncryptionIsSet),
    (["spot", "preemptible"], Args.SpotIsSet),
    (["allow-ips"], Args.AllowIPsIsSet),
    (["bitbucket-auth-client-id"], Args.BitbucketAuthClientIDIsSet),
    (["bitbucket-auth-client-secret"], Args.BitbucketAuthClientSecretIsSet),
    (["github-auth-client-id"], Args.GithubAuthClientIDIsSet),
    (["github-auth-client-secret"], Args.GithubAuthClientSecretIsSet),
    (["github-auth-host"], Args.GithubAuthHostIsSet),
    (["github-auth-ca-cert"], Args.GithubAuthCaCertIsSet),
    (["main-team-github-users"], Args.MainGithubUsersIsSet),
    (["main-team-github-teams"], Args.MainGithubTeamsIsSet),
    (["main-team-github-orgs"], Args.MainGithubOrgsIsSet),
    (["microsoft-auth-client-id"], Args.MicrosoftAuthClientIDIsSet),
    (["microsoft-auth-client-secret"], Args.MicrosoftAuthClientSecretIsSet),
    (["microsoft-auth-tenant"], Args.MicrosoftAuthTenantIsSet),
    (["add-tag"], Args.TagsIsSet),
    (["namespace"], Args.NamespaceIsSet),
    (["zone"], Args.ZoneIsSet),
    (["worker-type"], Args.WorkerTypeIsSet),
    (["vpc-network-range"], Args.NetworkCIDRIsSet),
    (["public-subnet-range"], Args.PublicCIDRIsSet),
    (["private-subnet-range"], Args.PrivateCIDRIsSet),
    (["rds-subnet-range1"], Args.RDS1CIDRIsSet),
    (["rds-subnet-range2"], Args.RDS2CIDRIsSet),
    (["no-metrics"], Args.NoMetricsIsSet) ]

/-- The overlay with every primitive explicitly-set field cleared: what an overlay holds
besides the fields of `primitiveFlags`, namely the values and the five derived flags. -/
def clearPrimitive (a : Args) : Args :=
  { a with
      RegionIsSet := false,
      EnableGlobalResourcesIsSet := false,
      EnablePipelineInstancesIsSet := false,
      InfluxDbRetentionIsSet := false,
      DomainIsSet := false,
      TLSCertIsSet := false,
      TLSKeyIsSet := false,
      WorkerCountIsSet := false,
      WorkerSizeIsSet := false,
      WebSizeIsSet := false,
      PersistentDiskIsSet := false,
      IAASIsSet := false,
      SelfUpdateIsSet := false,
      DBSizeIsSet := false,
      RDSDiskEncryptionIsSet := false,
      SpotIsSet := false,
      AllowIPsIsSet := false,
      BitbucketAuthClientIDIsSet := false,
      BitbucketAuthClientSecretIsSet := false,
      GithubAuthClientIDIsSet := false,
      GithubAuthClientSecretIsSet := false,
      GithubAuthHostIsSet := false,
      GithubAuthCaCertIsSet := false,
      MainGithubUsersIsSet := false,
      MainGithubTeamsIsSet := false,
      MainGithubOrgsIsSet := false,
      MicrosoftAuthClientIDIsSet := false,
      MicrosoftAuthClientSecretIsSet := false,
      MicrosoftAuthTenantIsSet := false,
      TagsIsSet := false,
      NamespaceIsSet := false,
      ZoneIsSet := false,
      WorkerTypeIsSet := false,
      NetworkCIDRIsSet := false,
      PublicCIDRIsSet := false,
      PrivateCIDRIsSet := false,
      RDS1CIDRIsSet := false,
      RDS2CIDRIsSet := false,
      NoMetricsIsSet := false }

/-- The five assignments of the derived flags that end `MarkSetFlags`. -/
def setDerived (c : FlagSetChecker) (a : Args) : Args :=
  { a with
      BitbucketAuthIsSet :=
        c.IsSet "bitbucket-auth-client-id" && c.IsSet "bitbucket-auth-client-secret"
      GithubAuthIsSet := c.IsSet "github-auth-client-id" && c.IsSet "github-auth-client-secret"
      GithubEnterpriseAuthIsSet := c.IsSet "github-auth-host" && c.IsSet "github-auth-ca-cert"
      MicrosoftAuthIsSet :=
        c.IsSet "microsoft-auth-client-id" && c.IsSet "microsoft-auth-client-secret"
      MainGithubAuthIsSet :=
        c.IsSet "main-team-github-users" || c.IsSet "main-team-github-teams" ||
          c.IsSet "main-team-github-orgs" }

/-- The flag names that the formulas of the derived flags read. -/
def derivedConstituents : List String :=
  ["bitbucket-auth-client-id", "bitbucket-auth-client-secret", "github-auth-client-id",
    "github-auth-client-secret", "github-auth-host", "github-auth-ca-cert",
    "microsoft-auth-client-id", "microsoft-auth-client-secret", "main-team-github-users",
    "main-team-github-teams", "main-team-github-orgs"]

/-- A user or organization token that, once its surrounding white space is trimmed, matches
`^[a-zA-Z0-9][a-zA-Z0-9-]*$` as a whole: a first rune of `[a-zA-Z0-9]` followed only by runes
of `[a-zA-Z0-9-]`. -/
def ValidUserOrOrg (tok : String) : Prop :=
  ∃ c cs, (TrimSpace tok).data = c :: cs ∧ Regex.alnum c = true ∧
    ∀ x ∈ cs, Regex.alnumDash x = true

/-- A tag that contains, somewhere, an `=` immediately preceded by a word rune and
immediately followed by a word rune. -/
def HasKeyValue (tag : String) : Prop :=
  ∃ u x y t, tag.data = u ++ x :: '=' :: y :: t ∧ Regex.word x = true ∧ Regex.word y = true

/-- An overlay that passes every rule of `Validate`: the provider is set, there is one worker
and every size is a listed one. -/
def passingArgs : Args :=
  { IAASIsSet := true, WorkerCount := 1, WorkerSize := "large", WebSize := "small",
    PersistentDiskSize := "default", DBSize := "small" }

/-- A checker that lists the 40 names of the cases of the `switch` of `MarkSetFlags`, in the
order of the cases, and reports each of them as set. -/
def allFlagsChecker : FlagSetChecker :=
  { IsSet := fun _ => true
    FlagNames :=
    [
     "region", "enable-global-resources", "enable-pipeline-instances",
     "influxdb-retention-period", "domain", "tls-cert", "tls-key", "workers", "worker-size",
     "web-size", "persistent-disk", "iaas", "self-update", "db-size", "rds-disk-encryption",
     "spot", "preemptible", "allow-ips", "bitbucket-auth-client-id",
     "bitbucket-auth-client-secret", "github-auth-client-id", "github-auth-client-secret",
     "github-auth-host", "github-auth-ca-cert", "main-team-github-users",
     "main-team-github-teams", "main-team-github-orgs", "microsoft-auth-client-id",
     "microsoft-auth-client-secret", "microsoft-auth-tenant", "add-tag", "namespace", "zone",
     "worker-type", "vpc-network-range", "public-subnet-range", "private-subnet-range",
     "rds-subnet-range1", "rds-subnet-range2", "no-metrics" ] }

/-! ## What the expressions mean -/

/-- Declarative meaning of the expressions: `Matches r pre w post` says that `r` matches the
stretch `w` of a text, where the stretch starts at the beginning of the text iff `pre` and
stops at its end iff `post`. The matcher above is proved to decide it. -/
inductive Regex.Matches : Regex → Bool → List Char → Bool → Prop
  | eps {pre post} : Matches Regex.eps pre [] post
  | bol {post} : Matches Regex.bol true [] post
  | eol {pre} : Matches Regex.eol pre [] true
  | cls {p c pre post} : p c = true → Matches (Regex.cls p) pre [c] post
  | cat {r s u v pre post} : Matches r pre u (post && v.isEmpty) →
      Matches s (pre && u.isEmpty) v post → Matches (Regex.cat r s) pre (u ++ v) post
  | altL {r s w pre post} : Matches r pre w post → Matches (Regex.alt r s) pre w post
  | altR {r s w pre post} : Matches s pre w post → Matches (Regex.alt r s) pre w post
  | starNil {r pre post} : Matches (Regex.star r) pre [] post
  | starCons {r u v pre post} : Matches r pre u (post && v.isEmpty) →
      Matches (Regex.star r) (pre && u.isEmpty) v post → Matches (Regex.star r) pre (u ++ v) post

/-! ## The matcher decides the meaning -/

namespace Regex

theorem matches_of_nullable {pre post : Bool} :
    ∀ r : Regex, nullable pre post r = true → Matches r pre [] post := by
  intro r
  induction r with
  | empty => intro h; simp [nullable] at h
  | eps => intro _; exact Matches.eps
  | bol => intro h; simp [nullable] at h; subst h; exact Matches.bol
  | eol => intro h; simp [nullable] at h; subst h; exact Matches.eol
  | cls p => intro h; simp [nullable] at h
  | cat r s ihr ihs =>
    intro h
    simp [nullable] at h
    have h1 : Matches r pre [] (post && ([] : List Char).isEmpty) := by simpa using ihr h.1
    have h2 : Matches s (pre && ([] : List Char).isEmpty) [] post := by simpa using ihs h.2
    exact Matches.cat h1 h2
  | alt r s ihr ihs =>
    intro h
    simp [nullable] at h
    rcases h with h | h
    · exact Matches.altL (ihr h)
    · exact Matches.altR (ihs h)
  | star r _ => intro _; exact Matches.starNil

theorem nullable_of_matches {r : Regex} {pre post : Bool} {w : List Char}
    (h : Matches r pre w post) : w = [] → nullable pre post r = true := by
  induction h with
  | eps => intro _; rfl
  | bol => intro _; rfl
  | eol => intro _; rfl
  | cls _ => intro e; simp at e
  | cat _ _ ih1 ih2 =>
    intro e
    simp at e
    obtain ⟨eu, ev⟩ := e
    subst eu; subst ev
    simp at ih1 ih2
    simp [nullable, ih1, ih2]
  | altL _ ih => intro e; simp [nullable, ih e]
  | altR _ ih => intro e; simp [nullable, ih e]
  | starNil => intro _; rfl
  | starCons _ _ _ _ => intro _; rfl

theorem nullable_iff {r : Regex} {pre post : Bool} :
    nullable pre post r = true ↔ Matches r pre [] post :=
  ⟨matches_of_nullable r, fun h => nullable_of_matches h rfl⟩

theorem matches_of_deriv {pre : Bool} {c : Char} :
    ∀ (r : Regex) (w : List Char) (post : Bool),
      Matches (deriv pre c r) false w post → Matches r pre (c :: w) post := by
  intro r
  induction r with
  | empty => intro w post h; simp [deriv] at h; cases h
  | eps => intro w post h; simp [deriv] at h; cases h
  | bol => intro w post h; simp [deriv] at h; cases h
  | eol => intro w post h; simp [deriv] at h; cases h
  | cls p =>
    intro w post h
    by_cases hp : p c = true
    · simp [deriv, hp] at h
      cases h
      exact Matches.cls hp
    · simp [deriv, hp] at h
      cases h
  | cat r s ihr ihs =>
    intro w post h
    simp only [deriv] at h
    cases h with
    | altL h =>
      cases h with
      | @cat _ _ u v _ _ h1 h2 =>
        have h1a := ihr u _ h1
        have h2a : Matches s (pre && (c :: u).isEmpty) v post := by simpa using h2
        exact Matches.cat h1a h2a
    | altR h =>
      by_cases hn : nullable pre false r = true
      · simp only [hn, if_true] at h
        have h1 : Matches r pre [] (post && (c :: w).isEmpty) := by
          simpa using matches_of_nullable r hn
        have h2 : Matches s (pre && ([] : List Char).isEmpty) (c :: w) post := by
          simpa using ihs w post h
        exact Matches.cat h1 h2
      · simp only [hn] at h
        cases h
  | alt r s ihr ihs =>
    intro w post h
    simp only [deriv] at h
    cases h with
    | altL h => exact Matches.altL (ihr w post h)
    | altR h => exact Matches.altR (ihs w post h)
  | star r ihr =>
    intro w post h
    simp only [deriv] at h
    cases h with
    | @cat _ _ u v _ _ h1 h2 =>
      have h1a := ihr u _ h1
      have h2a : Matches (star r) (pre && (c :: u).isEmpty) v post := by simpa using h2
      exact Matches.starCons h1a h2a

theorem deriv_of_matches {r : Regex} {pre post : Bool} {cw : List Char}
    (h : Matches r pre cw post) :
    ∀ (c : Char) (w : List Char), cw = c :: w → Matches (deriv pre c r) false w post := by
  induction h with
  | eps => intro c w e; simp at e
  | bol => intro c w e; simp at e
  | eol => intro c w e; simp at e
  | @cls p d _ _ hp =>
    intro c w e
    simp at e
    obtain ⟨e1, e2⟩ := e
    subst e1; subst e2
    simp only [deriv, hp, if_true]
    exact Matches.eps
  | @cat r s u v pre post h1 h2 ih1 ih2 =>
    intro c w e
    simp only [deriv]
    cases u with
    | nil =>
      simp at e
      subst e
      have hn : nullable pre false r = true := by
        apply nullable_of_matches _ rfl
        simpa using h1
      simp only [hn, if_true]
      apply Matches.altR
      simpa using ih2 c w rfl
    | cons d u1 =>
      simp at e
      obtain ⟨e1, e2⟩ := e
      subst e1; subst e2
      apply Matches.altL
      have h2a : Matches s (false && u1.isEmpty) v post := by simpa using h2
      exact Matches.cat (ih1 d u1 rfl) h2a
  | altL _ ih => intro c w e; simp only [deriv]; exact Matches.altL (ih c w e)
  | altR _ ih => intro c w e; simp only [deriv]; exact Matches.altR (ih c w e)
  | starNil => intro c w e; simp at e
  | @starCons r u v pre post h1 h2 ih1 ih2 =>
    intro c w e
    cases u with
    | nil =>
      simp at e
      subst e
      simpa using ih2 c w rfl
    | cons d u1 =>
      simp at e
      obtain ⟨e1, e2⟩ := e
      subst e1; subst e2
      simp only [deriv]
      have h2a : Matches (star r) (false && u1.isEmpty) v post := by simpa using h2
      exact Matches.cat (ih1 d u1 rfl) h2a

theorem deriv_iff {r : Regex} {pre post : Bool} {c : Char} {w : List Char} :
    Matches (deriv pre c r) false w post ↔ Matches r pre (c :: w) post :=
  ⟨matches_of_deriv r w post, fun h => deriv_of_matches h c w rfl⟩

theorem matchSpan_iff (w : List Char) :
    ∀ (r : Regex) (pre post : Bool), matchSpan r pre w post = true ↔ Matches r pre w post := by
  induction w with
  | nil => intro r pre post; simp only [matchSpan]; exact nullable_iff
  | cons c cs ih =>
    intro r pre post
    simp only [matchSpan]
    rw [ih]
    exact deriv_iff

end Regex
namespace Regex

theorem matchHead_iff (s : List Char) :
    ∀ (r : Regex) (pre : Bool),
      matchHead r pre s = true ↔ ∃ w t, s = w ++ t ∧ Matches r pre w t.isEmpty := by
  induction s with
  | nil =>
    intro r pre
    simp only [matchHead, nullable_iff]
    constructor
    · intro h; exact ⟨[], [], rfl, h⟩
    · rintro ⟨w, t, e, h⟩
      have e1 := e.symm
      simp at e1
      obtain ⟨ew, et⟩ := e1
      subst ew; subst et
      exact h
  | cons c cs ih =>
    intro r pre
    simp only [matchHead, Bool.or_eq_true, nullable_iff, ih]
    constructor
    · rintro (h | ⟨w, t, e, h⟩)
      · exact ⟨[], c :: cs, rfl, h⟩
      · exact ⟨c :: w, t, by simp [e], deriv_iff.mp h⟩
    · rintro ⟨w, t, e, h⟩
      cases w with
      | nil =>
        simp at e
        subst e
        exact Or.inl h
      | cons d w1 =>
        simp at e
        obtain ⟨e1, e2⟩ := e
        subst e1
        exact Or.inr ⟨w1, t, e2, deriv_iff.mpr h⟩

theorem matchFrom_iff (s : List Char) :
    ∀ (r : Regex) (pre : Bool),
      matchFrom r pre s = true ↔
        ∃ u w t, s = u ++ (w ++ t) ∧ Matches r (pre && u.isEmpty) w t.isEmpty := by
  induction s with
  | nil =>
    intro r pre
    simp only [matchFrom, matchHead_iff]
    constructor
    · rintro ⟨w, t, e, h⟩
      exact ⟨[], w, t, e, by simpa using h⟩
    · rintro ⟨u, w, t, e, h⟩
      have e1 := e.symm
      simp at e1
      obtain ⟨eu, ew, et⟩ := e1
      subst eu; subst ew; subst et
      exact ⟨[], [], rfl, by simpa using h⟩
  | cons c cs ih =>
    intro r pre
    simp only [matchFrom, Bool.or_eq_true, matchHead_iff, ih]
    constructor
    · rintro (⟨w, t, e, h⟩ | ⟨u, w, t, e, h⟩)
      · exact ⟨[], w, t, e, by simpa using h⟩
      · exact ⟨c :: u, w, t, by simp [e], by simpa using h⟩
    · rintro ⟨u, w, t, e, h⟩
      cases u with
      | nil => exact Or.inl ⟨w, t, e, by simpa using h⟩
      | cons d u1 =>
        simp at e
        exact Or.inr ⟨u1, w, t, e.2, by simpa using h⟩

theorem MatchString_iff (r : Regex) (s : String) :
    MatchString r s = true ↔
      ∃ u w t, s.data = u ++ (w ++ t) ∧ Matches r u.isEmpty w t.isEmpty := by
  simp only [MatchString, matchFrom_iff, Bool.true_and]

theorem findHead_isSome (s : List Char) :
    ∀ (r : Regex) (pre : Bool), (findHead r pre s).isSome = matchHead r pre s := by
  induction s with
  | nil => intro r pre; simp only [findHead, matchHead]; split <;> simp_all
  | cons c cs ih =>
    intro r pre
    simp only [findHead, matchHead]
    have h := ih (deriv pre c r) false
    cases hf : findHead (deriv pre c r) false cs with
    | some w => rw [hf] at h; simp at h; simp [h]
    | none =>
      rw [hf] at h; simp at h
      simp only [h, Bool.or_false]
      split <;> simp_all

theorem findHead_some (s : List Char) :
    ∀ (r : Regex) (pre : Bool) (w : List Char), findHead r pre s = some w →
      ∃ t, s = w ++ t ∧ Matches r pre w t.isEmpty := by
  induction s with
  | nil =>
    intro r pre w h
    simp only [findHead] at h
    split at h
    · rename_i hn
      simp at h
      subst h
      exact ⟨[], rfl, nullable_iff.mp hn⟩
    · simp at h
  | cons c cs ih =>
    intro r pre w h
    simp only [findHead] at h
    split at h
    · rename_i w1 hf
      simp at h
      subst h
      obtain ⟨t, e, hm⟩ := ih _ _ _ hf
      exact ⟨t, by simp [e], deriv_iff.mp hm⟩
    · split at h
      · rename_i hn
        simp at h
        subst h
        exact ⟨c :: cs, rfl, nullable_iff.mp hn⟩
      · simp at h

theorem findFrom_isSome (s : List Char) :
    ∀ (r : Regex) (pre : Bool), (findFrom r pre s).isSome = matchFrom r pre s := by
  induction s with
  | nil => intro r pre; simp only [findFrom, matchFrom]; exact findHead_isSome [] r pre
  | cons c cs ih =>
    intro r pre
    simp only [findFrom, matchFrom]
    have h := findHead_isSome (c :: cs) r pre
    cases hf : findHead r pre (c :: cs) with
    | some w => rw [hf] at h; simp at h; simp [h]
    | none => rw [hf] at h; simp at h; simp [h, ih]

theorem findFrom_some (s : List Char) :
    ∀ (r : Regex) (pre : Bool) (w : List Char), findFrom r pre s = some w →
      ∃ u t, s = u ++ (w ++ t) ∧ Matches r (pre && u.isEmpty) w t.isEmpty := by
  induction s with
  | nil =>
    intro r pre w h
    simp only [findFrom] at h
    obtain ⟨t, e, hm⟩ := findHead_some _ _ _ _ h
    exact ⟨[], t, e, by simpa using hm⟩
  | cons c cs ih =>
    intro r pre w h
    simp only [findFrom] at h
    split at h
    · rename_i w1 hf
      simp at h
      subst h
      obtain ⟨t, e, hm⟩ := findHead_some _ _ _ _ hf
      exact ⟨[], t, e, by simpa using hm⟩
    · obtain ⟨u, t, e, hm⟩ := ih _ _ _ h
      exact ⟨c :: u, t, by simp [e], by simpa using hm⟩

/-- For an expression that matches no empty stretch, `FindString` returns `""` exactly when
the text contains no match. -/
theorem FindString_eq_empty_iff (r : Regex)
    (hr : ∀ pre post w, Matches r pre w post → w ≠ []) (s : String) :
    FindString r s = "" ↔ MatchString r s = false := by
  have h := findFrom_isSome s.data r true
  unfold FindString MatchString
  cases hf : findFrom r true s.data with
  | none => rw [hf] at h; simp at h; simp [h]
  | some w =>
    rw [hf] at h; simp at h
    obtain ⟨u, t, _, hm⟩ := findFrom_some _ _ _ _ hf
    have hw := hr _ _ _ hm
    simp only [h]
    constructor
    · intro e
      have e1 := String.ext_iff.mp e
      simp at e1
      exact absurd e1 hw
    · intro e; simp at e

/-! ### Reading the meaning of the shapes that occur -/

theorem matches_bol_cat {r : Regex} {pre post : Bool} {w : List Char} :
    Matches (cat bol r) pre w post ↔ pre = true ∧ Matches r pre w post := by
  constructor
  · intro h
    cases h with
    | @cat _ _ u v _ _ h1 h2 =>
      cases h1
      exact ⟨rfl, by simpa using h2⟩
  · rintro ⟨hp, h⟩
    subst hp
    have h1 : Matches bol true [] (post && w.isEmpty) := Matches.bol
    have h2 : Matches r (true && ([] : List Char).isEmpty) w post := by simpa using h
    exact Matches.cat h1 h2

theorem matches_cat_eol {r : Regex} {pre post : Bool} {w : List Char} :
    Matches (cat r eol) pre w post ↔ post = true ∧ Matches r pre w post := by
  constructor
  · intro h
    cases h with
    | @cat _ _ u v _ _ h1 h2 =>
      cases h2
      exact ⟨rfl, by simpa using h1⟩
  · rintro ⟨hp, h⟩
    subst hp
    have h1 : Matches r pre w (true && ([] : List Char).isEmpty) := by simpa using h
    have h2 : Matches eol (pre && w.isEmpty) [] true := Matches.eol
    simpa using Matches.cat h1 h2

theorem matches_eol {pre post : Bool} {w : List Char} :
    Matches eol pre w post ↔ w = [] ∧ post = true := by
  constructor
  · intro h; cases h; exact ⟨rfl, rfl⟩
  · rintro ⟨e, hp⟩; subst e; subst hp; exact Matches.eol

theorem matches_cls_cat {p : Char → Bool} {r : Regex} {pre post : Bool} {w : List Char} :
    Matches (cat (cls p) r) pre w post ↔
      ∃ c v, w = c :: v ∧ p c = true ∧ Matches r false v post := by
  constructor
  · intro h
    cases h with
    | @cat _ _ u v _ _ h1 h2 =>
      cases h1 with
      | @cls _ c _ _ hp => exact ⟨c, v, rfl, hp, by simpa using h2⟩
  · rintro ⟨c, v, e, hp, h⟩
    subst e
    have h1 : Matches (cls p) pre [c] (post && v.isEmpty) := Matches.cls hp
    have h2 : Matches r (pre && [c].isEmpty) v post := by simpa using h
    exact Matches.cat h1 h2

theorem matches_lit_cat {d : Char} {r : Regex} {pre post : Bool} {w : List Char} :
    Matches (cat (lit d) r) pre w post ↔ ∃ v, w = d :: v ∧ Matches r false v post := by
  unfold lit
  rw [matches_cls_cat]
  constructor
  · rintro ⟨c, v, e, hp, h⟩
    simp at hp
    subst hp
    exact ⟨v, e, h⟩
  · rintro ⟨v, e, h⟩
    exact ⟨d, v, e, by simp, h⟩

theorem matches_star_cls {p : Char → Bool} {pre post : Bool} {w : List Char} :
    Matches (star (cls p)) pre w post ↔ ∀ c ∈ w, p c = true := by
  constructor
  · intro h
    generalize hr : star (cls p) = r at h
    induction h with
    | eps => cases hr
    | bol => cases hr
    | eol => cases hr
    | cls _ => cases hr
    | cat _ _ _ _ => cases hr
    | altL _ _ => cases hr
    | altR _ _ => cases hr
    | starNil => simp
    | @starCons r1 u v _ _ h1 _ _ ih2 =>
      cases hr
      cases h1 with
      | @cls _ c _ _ hp =>
        intro x hx
        simp at hx
        rcases hx with hx | hx
        · subst hx; exact hp
        · exact ih2 rfl x hx
  · intro h
    induction w generalizing pre with
    | nil => exact Matches.starNil
    | cons c cs ih =>
      have h1 : Matches (cls p) pre [c] (post && cs.isEmpty) :=
        Matches.cls (h c (by simp))
      have h2 : Matches (star (cls p)) (pre && [c].isEmpty) cs post :=
        ih (fun x hx => h x (by simp [hx]))
      exact Matches.starCons h1 h2

end Regex
/-! ## The expressions of the package -/

namespace Regex

/-- An expression all of whose matches start at the beginning of the text and stop at its
end is found in a text exactly when it matches the whole text. -/
theorem MatchString_anchored (r : Regex)
    (hr : ∀ pre post w, Matches r pre w post → pre = true ∧ post = true) (s : String) :
    MatchString r s = true ↔ Matches r true s.data true := by
  rw [MatchString_iff]
  constructor
  · rintro ⟨u, w, t, e, h⟩
    obtain ⟨hu, ht⟩ := hr _ _ _ h
    simp at hu ht
    subst hu; subst ht
    simp at e
    rw [e]
    simpa using h
  · intro h
    exact ⟨[], s.data, [], by simp, by simpa using h⟩

end Regex

theorem workerTypeRe_matches {pre post : Bool} {w : List Char} :
    Matches workerTypeRe pre w post ↔
      pre = true ∧ post = true ∧ (w = ['m', '5'] ∨ w = ['m', '5', 'a'] ∨ w = ['m', '4']) := by
  unfold workerTypeRe
  constructor
  · intro h
    cases h with
    | altL h =>
      cases h with
      | altL h =>
        rw [matches_bol_cat, matches_lit_cat] at h
        obtain ⟨hp, v, e, h⟩ := h
        rw [matches_lit_cat] at h
        obtain ⟨v1, e1, h⟩ := h
        rw [matches_eol] at h
        obtain ⟨e2, hq⟩ := h
        subst e2; subst e1; subst e
        exact ⟨hp, hq, Or.inl rfl⟩
      | altR h =>
        rw [matches_bol_cat, matches_lit_cat] at h
        obtain ⟨hp, v, e, h⟩ := h
        rw [matches_lit_cat] at h
        obtain ⟨v1, e1, h⟩ := h
        rw [matches_lit_cat] at h
        obtain ⟨v2, e2, h⟩ := h
        rw [matches_eol] at h
        obtain ⟨e3, hq⟩ := h
        subst e3; subst e2; subst e1; subst e
        exact ⟨hp, hq, Or.inr (Or.inl rfl)⟩
    | altR h =>
      rw [matches_bol_cat, matches_lit_cat] at h
      obtain ⟨hp, v, e, h⟩ := h
      rw [matches_lit_cat] at h
      obtain ⟨v1, e1, h⟩ := h
      rw [matches_eol] at h
      obtain ⟨e2, hq⟩ := h
      subst e2; subst e1; subst e
      exact ⟨hp, hq, Or.inr (Or.inr rfl)⟩
  · rintro ⟨hp, hq, h | h | h⟩
    · subst h
      apply Matches.altL; apply Matches.altL
      rw [matches_bol_cat, matches_lit_cat]
      refine ⟨hp, _, rfl, ?_⟩
      rw [matches_lit_cat]
      exact ⟨_, rfl, matches_eol.mpr ⟨rfl, hq⟩⟩
    · subst h
      apply Matches.altL; apply Matches.altR
      rw [matches_bol_cat, matches_lit_cat]
      refine ⟨hp, _, rfl, ?_⟩
      rw [matches_lit_cat]
      refine ⟨_, rfl, ?_⟩
      rw [matches_lit_cat]
      exact ⟨_, rfl, matches_eol.mpr ⟨rfl, hq⟩⟩
    · subst h
      apply Matches.altR
      rw [matches_bol_cat, matches_lit_cat]
      refine ⟨hp, _, rfl, ?_⟩
      rw [matches_lit_cat]
      exact ⟨_, rfl, matches_eol.mpr ⟨rfl, hq⟩⟩

/-- The expression `^m5$|^m5a$|^m4$` is found in a text exactly when the text is `m5`, `m5a`
or `m4`. -/
theorem workerTypeRe_MatchString (s : String) :
    workerTypeRe.MatchString s = true ↔ s = "m5" ∨ s = "m5a" ∨ s = "m4" := by
  rw [Regex.MatchString_anchored workerTypeRe
    (fun pre post w h => ⟨(workerTypeRe_matches.mp h).1, (workerTypeRe_matches.mp h).2.1⟩)]
  rw [workerTypeRe_matches]
  simp only [String.ext_iff, true_and]

theorem userAndOrgRe_matches {pre post : Bool} {w : List Char} :
    Matches userAndOrgRe pre w post ↔
      pre = true ∧ post = true ∧
        ∃ c v, w = c :: v ∧ alnum c = true ∧ ∀ x ∈ v, alnumDash x = true := by
  unfold userAndOrgRe
  rw [matches_bol_cat, matches_cls_cat]
  simp only [matches_cat_eol, matches_star_cls]
  constructor
  · rintro ⟨hp, c, v, e, hc, hq, hv⟩
    exact ⟨hp, hq, c, v, e, hc, hv⟩
  · rintro ⟨hp, hq, c, v, e, hc, hv⟩
    exact ⟨hp, c, v, e, hc, hq, hv⟩

theorem teamRe_matches {pre post : Bool} {w : List Char} :
    Matches teamRe pre w post ↔
      pre = true ∧ post = true ∧ w ≠ [] ∧ ∀ x ∈ w, alnumDash x = true := by
  unfold teamRe plus
  rw [matches_bol_cat, matches_cat_eol, matches_cls_cat]
  simp only [matches_star_cls]
  constructor
  · rintro ⟨hp, hq, c, v, e, hc, hv⟩
    subst e
    refine ⟨hp, hq, by simp, ?_⟩
    intro x hx
    simp at hx
    rcases hx with hx | hx
    · subst hx; exact hc
    · exact hv x hx
  · rintro ⟨hp, hq, hne, hw⟩
    cases w with
    | nil => exact absurd rfl hne
    | cons c v =>
      exact ⟨hp, hq, c, v, rfl, hw c (by simp), fun x hx => hw x (by simp [hx])⟩

/-- The test `userAndOrgRe.FindString(s) == ""` of the source holds exactly when `s` does not
match `^[a-zA-Z0-9][a-zA-Z0-9-]*$`. -/
theorem userAndOrgRe_FindString (s : String) :
    userAndOrgRe.FindString s = "" ↔ userAndOrgRe.MatchString s = false := by
  apply Regex.FindString_eq_empty_iff
  intro pre post w h
  obtain ⟨_, _, c, v, e, _, _⟩ := userAndOrgRe_matches.mp h
  simp [e]

/-- The test `teamRe.FindString(s) == ""` of the source holds exactly when `s` does not match
`^[a-zA-Z0-9-]+$`. -/
theorem teamRe_FindString (s : String) :
    teamRe.FindString s = "" ↔ teamRe.MatchString s = false := by
  apply Regex.FindString_eq_empty_iff
  intro pre post w h
  exact (teamRe_matches.mp h).2.2.1
/-! ## Helper lemmas on the embedding -/

theorem Ret.andThen_nil_right (r : Ret) : r.andThen Ret.nil = r := by
  cases r <;> rfl

theorem Ret.andThen_eq_nil_iff (r k : Ret) : r.andThen k = Ret.nil ↔ r = Ret.nil ∧ k = Ret.nil := by
  cases r <;> simp [Ret.andThen]

theorem Ret.nil_andThen (k : Ret) : Ret.nil.andThen k = k := rfl

theorem sizeListed_iff (v : String) (l : List String) : sizeListed v l = true ↔ v ∈ l := by
  induction l with
  | nil => simp [sizeListed]
  | cons x xs ih =>
    simp only [sizeListed, List.mem_cons]
    by_cases h : x = v
    · simp [h]
    · have h1 : ¬ v = x := fun e => h e.symm
      simp [h, h1, ih]

/-- Whether the `switch` of `MarkSetFlags` has a case for a name does not depend on the
overlay. -/
theorem markFlag_eq_none_iff (a b : Args) (f : String) :
    markFlag a f = none ↔ markFlag b f = none := by
  unfold markFlag
  split <;> simp

/-- The loop of `MarkSetFlags` returns the error of the first name that is set and has no
case in the `switch`. -/
theorem markLoop_find (lib : GoLib) (c : FlagSetChecker) (names : List String) :
    ∀ (a : Args) (f : String),
      names.find? (fun g => c.IsSet g && (markFlag a g).isNone) = some f →
      (markLoop lib c names a).2 =
        Ret.err ("flag " ++ Quote lib f ++ " is not supported by deployment flags") := by
  induction names with
  | nil => intro a f h; simp at h
  | cons g gs ih =>
    intro a f h
    simp only [markLoop]
    by_cases hs : c.IsSet g = true
    · simp only [hs, if_true]
      cases hm : markFlag a g with
      | none =>
        simp [List.find?, hs, hm] at h
        subst h
        rfl
      | some a1 =>
        simp only [List.find?, hs, hm, Option.isNone_some, Bool.and_false] at h
        apply ih
        rw [← h]
        congr 1
        funext x
        congr 1
        have := markFlag_eq_none_iff a a1 x
        cases h1 : markFlag a x <;> cases h2 : markFlag a1 x <;> simp_all
    · simp only [hs]
      simp only [List.find?, hs, Bool.false_and] at h
      exact ih a f h

theorem markLoop_ret (lib : GoLib) (c : FlagSetChecker) (names : List String) :
    ∀ a : Args, (markLoop lib c names a).2 ≠ Ret.panic := by
  induction names with
  | nil => intro a; simp [markLoop]
  | cons g gs ih =>
    intro a
    simp only [markLoop]
    split
    · split
      · exact ih _
      · simp
    · exact ih _

theorem MarkSetFlags_snd (lib : GoLib) (a : Args) (c : FlagSetChecker) :
    (MarkSetFlags lib a c).2 = (markLoop lib c c.FlagNames a).2 := by
  unfold MarkSetFlags
  split
  · rename_i h; rw [h]
  · rfl

/-! ## The claims -/

/-- C1 (counterexample). The name `foo` is in `FlagNames()` and has no case in the `switch`,
yet `MarkSetFlags` returns `nil` because the checker reports it as not set; and of two
unsupported names that are both set, the error names the first and not the second. -/
theorem markSetFlags_unset_unsupported_accepted :
    "foo" ∈ (FlagSetChecker.mk (fun _ => false) ["foo"]).FlagNames ∧
    markFlag {} "foo" = none ∧
    (MarkSetFlags plainLib {} ⟨fun _ => false, ["foo"]⟩).2 = Ret.nil ∧
    markFlag {} "bar" = none ∧
    (MarkSetFlags plainLib {} ⟨fun _ => true, ["foo", "bar"]⟩).2 =
      Ret.err "flag \"foo\" is not supported by deployment flags" := by
  decide

/-- C1 (amended). If some name of `c.FlagNames()` that `c.IsSet` reports as set has no case in
the `switch` of `MarkSetFlags`, then `MarkSetFlags` returns the unsupported-flag error whose
message names (quoted by `%q`) the first such name. -/
theorem markSetFlags_unsupported (lib : GoLib) (a : Args) (c : FlagSetChecker)
    (h : ∃ g ∈ c.FlagNames, c.IsSet g = true ∧ markFlag a g = none) :
    ∃ f, c.FlagNames.find? (fun g => c.IsSet g && (markFlag a g).isNone) = some f ∧
      (MarkSetFlags lib a c).2 =
        Ret.err ("flag " ++ Quote lib f ++ " is not supported by deployment flags") := by
  obtain ⟨g, hg, hs, hn⟩ := h
  cases hf : c.FlagNames.find? (fun g => c.IsSet g && (markFlag a g).isNone) with
  | none =>
    rw [List.find?_eq_none] at hf
    have := hf g hg
    simp [hs, hn] at this
  | some f =>
    refine ⟨f, rfl, ?_⟩
    rw [MarkSetFlags_snd]
    exact markLoop_find lib c c.FlagNames a f hf

/-- C1 (witness). The checker lists `iaas`, `foo`, `bar`, all set: the error names `foo`. -/
theorem markSetFlags_unsupported_witness :
    ∃ f, (FlagSetChecker.mk (fun _ => true) ["iaas", "foo", "bar"]).FlagNames.find?
        (fun g => (FlagSetChecker.mk (fun _ => true) ["iaas", "foo", "bar"]).IsSet g &&
          (markFlag {} g).isNone) = some f ∧
      (MarkSetFlags plainLib {} ⟨fun _ => true, ["iaas", "foo", "bar"]⟩).2 =
        Ret.err ("flag " ++ Quote plainLib f ++ " is not supported by deployment flags") :=
  markSetFlags_unsupported plainLib {} ⟨fun _ => true, ["iaas", "foo", "bar"]⟩
    ⟨"foo", by decide, rfl, by decide⟩

/-- C2. `Validate` returns exactly the result of the first failing rule in the fixed order
required IAAS, cert pair, worker, web, persistent disk, database, GitHub auth, network
ranges, tags, main-team auth; it returns `nil` if and only if no rule fails; and every
overlay with `IAASIsSet = false` yields the error `--iaas flag not set`. -/
theorem validate_first_failure (lib : GoLib) (a : Args) :
    Validate lib a = firstFailure (ruleResults lib a) ∧
    (Validate lib a = Ret.nil ↔ ∀ r ∈ ruleResults lib a, r = Ret.nil) ∧
    (a.IAASIsSet = false → Validate lib a = Ret.err "--iaas flag not set") := by
  have key : Validate lib a = firstFailure (ruleResults lib a) := by
    unfold Validate ruleResults validateMainAuth
    simp only [Ret.andThen_nil_right, firstFailure]
    by_cases h0 : a.IAASIsSet = false
    · simp [h0]
    · simp only [h0, if_false, if_true]
      cases validateCertFields a <;> simp [Ret.andThen]
      cases validateWorkerFields lib a <;> simp
      cases validateWebFields a <;> simp
      cases validatePersistentDiskFields a <;> simp
      cases validateDBFields a <;> simp
      cases validateGithubFields lib a <;> simp
      cases validateNetworkRanges a <;> simp
      cases validateTags a <;> simp
      split <;> split <;> simp_all
  refine ⟨key, ?_, ?_⟩
  · rw [key]
    generalize ruleResults lib a = l
    induction l with
    | nil => simp [firstFailure]
    | cons r rs ih =>
      simp only [firstFailure, List.mem_cons, forall_eq_or_imp]
      by_cases hr : r = Ret.nil
      · simp [hr, ih]
      · simp [hr]
  · intro h
    simp [Validate, h]

/-- C2 (witness). The zero overlay has `IAASIsSet = false` and violates other rules as well
(its worker count is 0, its sizes are empty): the error is that of the first rule. -/
theorem validate_first_failure_witness :
    Validate plainLib {} = Ret.err "--iaas flag not set" ∧
    validateWorkerFields plainLib {} ≠ Ret.nil :=
  ⟨(validate_first_failure plainLib {}).2.2 rfl, by decide⟩

/-- C3. After `MarkSetFlags` returns without error, each derived flag equals its formula over
`c.IsSet`, whatever the overlay held before the call. -/
theorem markSetFlags_derived (lib : GoLib) (a : Args) (c : FlagSetChecker)
    (h : (MarkSetFlags lib a c).2 = Ret.nil) :
    (MarkSetFlags lib a c).1.BitbucketAuthIsSet =
      (c.IsSet "bitbucket-auth-client-id" && c.IsSet "bitbucket-auth-client-secret") ∧
    (MarkSetFlags lib a c).1.GithubAuthIsSet =
      (c.IsSet "github-auth-client-id" && c.IsSet "github-auth-client-secret") ∧
    (MarkSetFlags lib a c).1.MicrosoftAuthIsSet =
      (c.IsSet "microsoft-auth-client-id" && c.IsSet "microsoft-auth-client-secret") ∧
    (MarkSetFlags lib a c).1.GithubEnterpriseAuthIsSet =
      (c.IsSet "github-auth-host" && c.IsSet "github-auth-ca-cert") ∧
    (MarkSetFlags lib a c).1.MainGithubAuthIsSet =
      (c.IsSet "main-team-github-users" || c.IsSet "main-team-github-teams" ||
        c.IsSet "main-team-github-orgs") := by
  unfold MarkSetFlags at h ⊢
  split
  · simp
  · rename_i r hr
    simp only at h
    rcases hm : markLoop lib c c.FlagNames a with ⟨a1, r1⟩
    rw [hm] at h hr
    simp only at h
    subst h
    exact absurd rfl (hr a1)

/-- C3 (witness). From an overlay whose derived flags are all `true`, with only the
bitbucket client id set: the call succeeds and the derived flags are recomputed. -/
theorem markSetFlags_derived_witness :
    (MarkSetFlags plainLib
        { BitbucketAuthIsSet := true, GithubAuthIsSet := true, MicrosoftAuthIsSet := true,
          GithubEnterpriseAuthIsSet := true, MainGithubAuthIsSet := true }
        ⟨fun f => f == "bitbucket-auth-client-id",
          ["bitbucket-auth-client-id", "bitbucket-auth-client-secret"]⟩).2 = Ret.nil ∧
    (MarkSetFlags plainLib
        { BitbucketAuthIsSet := true, GithubAuthIsSet := true, MicrosoftAuthIsSet := true,
          GithubEnterpriseAuthIsSet := true, MainGithubAuthIsSet := true }
        ⟨fun f => f == "bitbucket-auth-client-id",
          ["bitbucket-auth-client-id", "bitbucket-auth-client-secret"]⟩).1.BitbucketAuthIsSet =
      false :=
  ⟨by decide,
   (markSetFlags_derived plainLib _ ⟨fun f => f == "bitbucket-auth-client-id",
      ["bitbucket-auth-client-id", "bitbucket-auth-client-secret"]⟩ (by decide)).1.trans
     (by decide)⟩

/-- C4. Every overlay with `WorkerCount < 1` makes `Validate` return a non-nil error, whatever
its other fields and flags are; when the provider is set and the cert pair passes, that
error is the one of the worker-count check. -/
theorem validate_workerCount_lt_one (lib : GoLib) (a : Args) (h : a.WorkerCount < 1) :
    (∃ msg, Validate lib a = Ret.err msg) ∧
    (a.IAASIsSet = true → validateCertFields a = Ret.nil →
      Validate lib a = Ret.err "minimum number of workers is 1") := by
  constructor
  · unfold Validate
    by_cases h0 : a.IAASIsSet = false
    · exact ⟨"--iaas flag not set", by simp [h0]⟩
    · simp only [h0, if_false]
      cases hc : validateCertFields a with
      | err m => exact ⟨m, rfl⟩
      | panic =>
        unfold validateCertFields at hc
        split at hc <;> [skip; split at hc <;> [skip; split at hc]] <;> simp at hc
      | nil =>
        refine ⟨"minimum number of workers is 1", ?_⟩
        simp [Ret.andThen, validateWorkerFields, h]
  · intro h0 hc
    unfold Validate
    simp [h0, hc, Ret.andThen, validateWorkerFields, h]

/-- C4 (witness). The overlay that passes every rule, but for its worker count 0: the provider
is set and the cert pair passes, so that `Validate` reaches the worker-count check and
returns its error. -/
theorem validate_workerCount_lt_one_witness :
    ({ passingArgs with WorkerCount := 0 } : Args).WorkerCount < 1 ∧
    ({ passingArgs with WorkerCount := 0 } : Args).IAASIsSet = true ∧
    validateCertFields { passingArgs with WorkerCount := 0 } = Ret.nil ∧
    Validate plainLib { passingArgs with WorkerCount := 0 } =
      Ret.err "minimum number of workers is 1" ∧
    Validate plainLib { passingArgs with WorkerCount := -2 } =
      Ret.err "minimum number of workers is 1" :=
  ⟨by decide, by decide, by decide,
   (validate_workerCount_lt_one plainLib { passingArgs with WorkerCount := 0 }
      (by decide)).2 (by decide) (by decide),
   (validate_workerCount_lt_one plainLib { passingArgs with WorkerCount := -2 }
      (by decide)).2 (by decide) (by decide)⟩

theorem workerTypeRe_MatchString_false (s : String) :
    workerTypeRe.MatchString s = false ↔ ¬ (s = "m5" ∨ s = "m5a" ∨ s = "m4") := by
  rw [← workerTypeRe_MatchString]
  simp

/-- C5. `validateWorkerFields` returns `nil` if and only if `WorkerCount >= 1`, an explicitly
set worker type comes with a provider that lower-cases to `aws` and is, as a whole string,
one of `m4`, `m5`, `m5a`, and `WorkerSize` is a member of `WorkerSizes`. With provider `AWS`,
the type set and the rest valid, `m5` passes and `m6`, `m5x`, `xm5` fail as invalid types. -/
theorem validateWorkerFields_nil_iff (lib : GoLib) (a : Args) :
    (validateWorkerFields lib a = Ret.nil ↔
      1 ≤ a.WorkerCount ∧
      (a.WorkerTypeIsSet = true →
        ToLower lib a.IAAS = "aws" ∧
          (a.WorkerType = "m4" ∨ a.WorkerType = "m5" ∨ a.WorkerType = "m5a")) ∧
      a.WorkerSize ∈ WorkerSizes) ∧
    (a.IAAS = "AWS" → a.WorkerTypeIsSet = true → 1 ≤ a.WorkerCount →
      a.WorkerSize ∈ WorkerSizes →
      (a.WorkerType = "m5" → validateWorkerFields lib a = Ret.nil) ∧
      (a.WorkerType = "m6" ∨ a.WorkerType = "m5x" ∨ a.WorkerType = "xm5" →
        validateWorkerFields lib a =
          Ret.err ("worker-type " ++ a.WorkerType ++
            " is invalid: must be one of m4, m5, or m5a"))) := by
  have main : validateWorkerFields lib a = Ret.nil ↔
      1 ≤ a.WorkerCount ∧
      (a.WorkerTypeIsSet = true →
        ToLower lib a.IAAS = "aws" ∧
          (a.WorkerType = "m4" ∨ a.WorkerType = "m5" ∨ a.WorkerType = "m5a")) ∧
      a.WorkerSize ∈ WorkerSizes := by
    unfold validateWorkerFields
    by_cases h1 : a.WorkerCount < 1
    · have : ¬ 1 ≤ a.WorkerCount := by omega
      simp [h1, this]
    · have h1a : 1 ≤ a.WorkerCount := by omega
      simp only [h1, if_false, h1a, true_and]
      by_cases h2 : a.WorkerTypeIsSet = true ∧ ToLower lib a.IAAS ≠ "aws"
      · simp only [h2, and_self, if_true]
        have := h2.2
        simp [h2.1, this]
      · simp only [h2, if_false]
        by_cases h3 : a.WorkerTypeIsSet = true ∧ workerTypeRe.MatchString a.WorkerType = false
        · simp only [h3, and_self, if_true]
          have h3b := (workerTypeRe_MatchString_false _).mp h3.2
          have : ¬ (a.WorkerType = "m4" ∨ a.WorkerType = "m5" ∨ a.WorkerType = "m5a") := by
            intro h; apply h3b; tauto
          simp [h3.1, this]
        · simp only [h3, if_false]
          have e : (a.WorkerTypeIsSet = true →
              ToLower lib a.IAAS = "aws" ∧
                (a.WorkerType = "m4" ∨ a.WorkerType = "m5" ∨ a.WorkerType = "m5a")) := by
            intro ht
            have c2 : ToLower lib a.IAAS = "aws" := by
              by_contra hne; exact h2 ⟨ht, hne⟩
            have c3 : workerTypeRe.MatchString a.WorkerType = true := by
              cases hm : workerTypeRe.MatchString a.WorkerType
              · exact absurd ⟨ht, hm⟩ h3
              · rfl
            have := (workerTypeRe_MatchString _).mp c3
            exact ⟨c2, by tauto⟩
          by_cases h4 : sizeListed a.WorkerSize WorkerSizes = true
          · rw [if_pos h4]
            exact ⟨fun _ => ⟨e, (sizeListed_iff _ _).mp h4⟩, fun _ => rfl⟩
          · have : a.WorkerSize ∉ WorkerSizes := fun hm => h4 ((sizeListed_iff _ _).mpr hm)
            simp [h4, this]
  refine ⟨main, ?_⟩
  intro hi ht hc hs
  constructor
  · intro hw
    rw [main]
    refine ⟨hc, fun _ => ⟨?_, Or.inr (Or.inl hw)⟩, hs⟩
    rw [hi]; rfl
  · intro hw
    have hl : ToLower lib a.IAAS = "aws" := by rw [hi]; rfl
    have hm : workerTypeRe.MatchString a.WorkerType = false := by
      rcases hw with hw | hw | hw <;> rw [hw] <;> decide
    have h1 : ¬ a.WorkerCount < 1 := by omega
    simp [validateWorkerFields, h1, ht, hl, hm]

/-- C5 (witness). Provider `AWS`, one worker of size `large`, type `m5` explicitly set. -/
theorem validateWorkerFields_nil_iff_witness :
    validateWorkerFields plainLib
      { IAAS := "AWS", WorkerTypeIsSet := true, WorkerCount := 1, WorkerSize := "large",
        WorkerType := "m5" } = Ret.nil :=
  ((validateWorkerFields_nil_iff plainLib
      { IAAS := "AWS", WorkerTypeIsSet := true, WorkerCount := 1, WorkerSize := "large",
        WorkerType := "m5" }).2 rfl rfl (by decide) (by decide)).1 rfl

/-- C6. `validateCertFields`: a key without a cert fails saying that `--tls-cert` is
required, a cert without a key fails saying that `--tls-key` is required, both without a
domain fail asking for `--domain`, and the result is `nil` if and only if key and cert are
both empty or key, cert and domain are all non-empty. -/
theorem validateCertFields_cases (a : Args) :
    (a.TLSKey ≠ "" → a.TLSCert = "" →
      validateCertFields a = Ret.err "--tls-key requires --tls-cert to also be provided") ∧
    (a.TLSCert ≠ "" → a.TLSKey = "" →
      validateCertFields a = Ret.err "--tls-cert requires --tls-key to also be provided") ∧
    (a.TLSKey ≠ "" → a.TLSCert ≠ "" → a.Domain = "" →
      validateCertFields a = Ret.err "custom certificates require --domain to be provided") ∧
    (validateCertFields a = Ret.nil ↔
      (a.TLSKey = "" ∧ a.TLSCert = "") ∨ (a.TLSKey ≠ "" ∧ a.TLSCert ≠ "" ∧ a.Domain ≠ "")) := by
  unfold validateCertFields
  by_cases hk : a.TLSKey = "" <;> by_cases hc : a.TLSCert = "" <;>
    by_cases hd : a.Domain = "" <;> simp [hk, hc, hd]

/-- C6 (witness). The overlay with `TLSKey = "x"` and no cert. -/
theorem validateCertFields_cases_witness :
    validateCertFields { TLSKey := "x" } =
      Ret.err "--tls-key requires --tls-cert to also be provided" :=
  (validateCertFields_cases { TLSKey := "x" }).1 (by decide) rfl

theorem validateTagsLoop_find (l : List String) :
    ∀ t, l.find? (fun t => !tagRe.MatchString t) = some t →
      validateTagsLoop l = Ret.err ("`" ++ t ++ "` is not in the format `key=value`") := by
  induction l with
  | nil => intro t h; simp at h
  | cons x xs ih =>
    intro t h
    simp only [validateTagsLoop]
    cases hm : tagRe.MatchString x with
    | false =>
      simp [List.find?, hm] at h
      subst h
      simp
    | true =>
      simp only [List.find?, hm, Bool.not_true] at h
      simp only [Bool.true_eq_false, if_false]
      exact ih t h

theorem validateTagsLoop_err_iff (l : List String) :
    (∃ msg, validateTagsLoop l = Ret.err msg) ↔ ∃ t ∈ l, tagRe.MatchString t = false := by
  induction l with
  | nil => simp [validateTagsLoop]
  | cons x xs ih =>
    simp only [validateTagsLoop]
    cases hm : tagRe.MatchString x with
    | false => simp [hm]
    | true => simp [hm, ih]

/-- C7. `validateTags` returns an error if and only if some tag does not match the pattern,
and then the message quotes the first non-matching tag in list order; for the tags
`env=prod`, `bad tag` the error names `bad tag`. -/
theorem validateTags_first_bad (a : Args) :
    ((∃ msg, validateTags a = Ret.err msg) ↔ ∃ t ∈ a.Tags, tagRe.MatchString t = false) ∧
    (∀ t, a.Tags.find? (fun t => !tagRe.MatchString t) = some t →
      validateTags a = Ret.err ("`" ++ t ++ "` is not in the format `key=value`")) ∧
    (a.Tags = ["env=prod", "bad tag"] →
      validateTags a = Ret.err "`bad tag` is not in the format `key=value`") := by
  refine ⟨validateTagsLoop_err_iff a.Tags, validateTagsLoop_find a.Tags, ?_⟩
  intro h
  unfold validateTags
  rw [h]
  decide

/-- C7 (witness). The tags `env=prod`, `bad tag`. -/
theorem validateTags_first_bad_witness :
    validateTags { Tags := ["env=prod", "bad tag"] } =
      Ret.err "`bad tag` is not in the format `key=value`" :=
  (validateTags_first_bad { Tags := ["env=prod", "bad tag"] }).2.2 rfl

theorem splitAux_length (sep : Char) (s : List Char) :
    ∀ cur, (splitAux sep cur s).length = s.count sep + 1 := by
  induction s with
  | nil => intro cur; simp [splitAux]
  | cons c cs ih =>
    intro cur
    simp only [splitAux]
    by_cases h : c = sep
    · subst h; simp [ih]
    · simp [h, ih, List.count_cons]

/-- The function `Split` returns one piece more than the text has separators. -/
theorem Split_length (s : String) (sep : Char) :
    (Split s sep).length = s.data.count sep + 1 :=
  splitAux_length sep s.data []

theorem validateTeam_malformed (lib : GoLib) (t : String) (h : (Split t ':').length ≠ 2) :
    ∃ seg rest, Split t ':' = seg :: rest ∧
      validateTeam lib t =
        Ret.err ("Invalid team " ++ Quote lib (TrimSpace seg) ++ " does not contain org") := by
  unfold validateTeam
  cases hs : Split t ':' with
  | nil =>
    have := Split_length t ':'
    rw [hs] at this
    simp at this
  | cons seg rest =>
    rw [hs] at h
    refine ⟨seg, rest, rfl, ?_⟩
    simp only [List.get?_cons_zero]
    rw [if_pos h]

theorem validateTeam_nil_iff (lib : GoLib) (t : String) :
    validateTeam lib t = Ret.nil ↔ ValidOrgTeam t := by
  unfold validateTeam ValidOrgTeam
  cases hs : Split t ':' with
  | nil => simp
  | cons p0 rest =>
    cases rest with
    | nil => simp
    | cons p1 rest1 =>
      cases rest1 with
      | cons p2 rest2 => simp
      | nil =>
        simp only [List.get?_cons_zero, List.length_cons, List.length_nil]
        simp only [List.get?, ne_eq, not_true_eq_false, if_false]
        by_cases ho : userAndOrgRe.FindString (TrimSpace p0) = ""
        · have := (userAndOrgRe_FindString _).mp ho
          simp [ho, this]
        · have ho1 : userAndOrgRe.MatchString (TrimSpace p0) = true := by
            cases hm : userAndOrgRe.MatchString (TrimSpace p0)
            · exact absurd ((userAndOrgRe_FindString _).mpr hm) ho
            · rfl
          by_cases ht : teamRe.FindString (TrimSpace p1) = ""
          · have := (teamRe_FindString _).mp ht
            simp [ho, ht, this]
          · have ht1 : teamRe.MatchString (TrimSpace p1) = true := by
              cases hm : teamRe.MatchString (TrimSpace p1)
              · exact absurd ((teamRe_FindString _).mpr hm) ht
              · rfl
            simp only [ho, ht, if_false, true_iff]
            exact ⟨p0, p1, rfl, ho1, ht1⟩

theorem validateTeamsLoop_append (lib : GoLib) (tok : String) (post : List String) :
    ∀ pre : List String, (∀ t ∈ pre, validateTeam lib t = Ret.nil) →
      validateTeamsLoop lib (pre ++ tok :: post) =
        (validateTeam lib tok).andThen (validateTeamsLoop lib post) := by
  intro pre
  induction pre with
  | nil => intro _; rfl
  | cons x xs ih =>
    intro h
    simp only [List.cons_append, validateTeamsLoop]
    rw [h x (by simp), Ret.nil_andThen]
    exact ih (fun t ht => h t (by simp [ht]))

theorem validateTeamsLoop_nil_iff (lib : GoLib) (l : List String) :
    validateTeamsLoop lib l = Ret.nil ↔ ∀ t ∈ l, validateTeam lib t = Ret.nil := by
  induction l with
  | nil => simp [validateTeamsLoop]
  | cons x xs ih => simp [validateTeamsLoop, Ret.andThen_eq_nil_iff, ih]

/-- The method `validateMainAuthFlags` when the teams are set and the checks of the users and
of the organizations pass: the result is that of the loop over the teams. -/
theorem validateMainAuthFlags_teams (lib : GoLib) (a : Args)
    (hset : a.MainGithubTeamsIsSet = true)
    (husers : a.MainGithubUsersIsSet = true →
      validateUsersLoop lib (Split a.MainGithubUsers ',') = Ret.nil)
    (horgs : a.MainGithubOrgsIsSet = true →
      validateOrgsLoop lib (Split a.MainGithubOrgs ',') = Ret.nil) :
    validateMainAuthFlags lib a = validateTeamsLoop lib (Split a.MainGithubTeams ',') := by
  unfold validateMainAuthFlags
  have h1 : (if a.MainGithubUsersIsSet = true then
      validateUsersLoop lib (Split a.MainGithubUsers ',') else Ret.nil) = Ret.nil := by
    split
    · rename_i h; exact husers h
    · rfl
  have h2 : (if a.MainGithubOrgsIsSet = true then
      validateOrgsLoop lib (Split a.MainGithubOrgs ',') else Ret.nil) = Ret.nil := by
    split
    · rename_i h; exact horgs h
    · rfl
  rw [h1, h2, hset]
  rfl

/-- C8 (counterexample). The only token of ` bad` has no colon and its first segment is
` bad`, with the leading space; the error reports `bad`, the segment with its white space
trimmed, and not the segment itself. -/
theorem validateMainAuthFlags_reports_trimmed_segment :
    Split " bad" ',' = [" bad"] ∧ Split " bad" ':' = [" bad"] ∧
    validateMainAuthFlags plainLib { MainGithubTeamsIsSet := true, MainGithubTeams := " bad" } =
      Ret.err "Invalid team \"bad\" does not contain org" ∧
    validateMainAuthFlags plainLib { MainGithubTeamsIsSet := true, MainGithubTeams := " bad" } ≠
      Ret.err ("Invalid team " ++ Quote plainLib " bad" ++ " does not contain org") := by
  decide

/-- C8 (amended). With `MainGithubTeamsIsSet` true and the user and org checks passing: if a
comma-separated token of `MainGithubTeams` has zero colons or more than one, and every
earlier token is a valid `org:team` pair, `validateMainAuthFlags` fails and the error
reports that token's first colon-separated segment with its surrounding white space trimmed
(for `myorg:myteam,bad` it names `bad`, for `a:b:c` it names `a`); and the result is `nil`
exactly when every token is a valid `org:team` pair. -/
theorem validateMainAuthFlags_malformed_team (lib : GoLib) (a : Args)
    (hset : a.MainGithubTeamsIsSet = true)
    (husers : a.MainGithubUsersIsSet = true →
      validateUsersLoop lib (Split a.MainGithubUsers ',') = Ret.nil)
    (horgs : a.MainGithubOrgsIsSet = true →
      validateOrgsLoop lib (Split a.MainGithubOrgs ',') = Ret.nil) :
    (∀ pre tok post, Split a.MainGithubTeams ',' = pre ++ tok :: post →
      (∀ t ∈ pre, ValidOrgTeam t) → tok.data.count ':' ≠ 1 →
      ∃ seg rest, Split tok ':' = seg :: rest ∧
        validateMainAuthFlags lib a =
          Ret.err ("Invalid team " ++ Quote lib (TrimSpace seg) ++ " does not contain org")) ∧
    (validateMainAuthFlags lib a = Ret.nil ↔
      ∀ t ∈ Split a.MainGithubTeams ',', ValidOrgTeam t) ∧
    (a.MainGithubTeams = "myorg:myteam,bad" →
      validateMainAuthFlags lib a = Ret.err "Invalid team \"bad\" does not contain org") ∧
    (a.MainGithubTeams = "a:b:c" →
      validateMainAuthFlags lib a = Ret.err "Invalid team \"a\" does not contain org") := by
  rw [validateMainAuthFlags_teams lib a hset husers horgs]
  refine ⟨?_, ?_, ?_, ?_⟩
  · intro pre tok post hs hpre hc
    have hlen : (Split tok ':').length ≠ 2 := by
      rw [Split_length]; omega
    obtain ⟨seg, rest, e, hv⟩ := validateTeam_malformed lib tok hlen
    refine ⟨seg, rest, e, ?_⟩
    rw [hs, validateTeamsLoop_append lib tok post pre
      (fun t ht => (validateTeam_nil_iff lib t).mpr (hpre t ht)), hv]
    rfl
  · rw [validateTeamsLoop_nil_iff]
    constructor
    · intro h t ht; exact (validateTeam_nil_iff lib t).mp (h t ht)
    · intro h t ht; exact (validateTeam_nil_iff lib t).mpr (h t ht)
  · intro h; rw [h]; rfl
  · intro h; rw [h]; rfl

/-- C8 (witness). The teams `myorg:myteam,bad`, with neither users nor orgs set. -/
theorem validateMainAuthFlags_malformed_team_witness :
    validateMainAuthFlags plainLib
        { MainGithubTeamsIsSet := true, MainGithubTeams := "myorg:myteam,bad" } =
      Ret.err "Invalid team \"bad\" does not contain org" :=
  (validateMainAuthFlags_malformed_team plainLib
    { MainGithubTeamsIsSet := true, MainGithubTeams := "myorg:myteam,bad" } rfl
    (by decide) (by decide)).2.2.1 rfl

/-- C9. With client id and secret both empty: a non-empty host with an empty CA cert fails
with the error that names `--github-auth-ca-cert`, `--github-auth-client-id` and
`--github-auth-client-secret`; a non-empty CA cert with an empty host fails with the error
that names `--github-auth-host`, `--github-auth-client-id` and
`--github-auth-client-secret`. -/
theorem validateGithubFields_companions (lib : GoLib) (a : Args)
    (hid : a.GithubAuthClientID = "") (hsec : a.GithubAuthClientSecret = "") :
    (a.GithubAuthHost ≠ "" → a.GithubAuthCaCert = "" →
      validateGithubFields lib a = Ret.err "--github-auth-host requires --github-auth-ca-cert, --github-auth-client-id, --github-auth-client-secret to also be provided") ∧
    (a.GithubAuthCaCert ≠ "" → a.GithubAuthHost = "" →
      validateGithubFields lib a = Ret.err "--github-auth-ca-cert requires --github-auth-host, --github-auth-client-id, --github-auth-client-secret to also be provided") := by
  unfold validateGithubFields
  constructor
  · intro hh hc
    simp [hid, hsec, hh, hc]
  · intro hc hh
    simp [hid, hsec, hh, hc]

/-- C9 (witness). The overlay whose only GitHub field is the host `ghe.example.com`. -/
theorem validateGithubFields_companions_witness :
    validateGithubFields plainLib { GithubAuthHost := "ghe.example.com" } = Ret.err "--github-auth-host requires --github-auth-ca-cert, --github-auth-client-id, --github-auth-client-secret to also be provided" :=
  (validateGithubFields_companions plainLib { GithubAuthHost := "ghe.example.com" }
    rfl rfl).1 (by decide) rfl

theorem fmtStrings_WorkerSizes :
    fmtStrings WorkerSizes = "[medium large xlarge 2xlarge 4xlarge 12xlarge 24xlarge]" := by
  decide

theorem fmtStrings_WebSizes : fmtStrings WebSizes = "[small medium large xlarge 2xlarge]" := by
  decide

theorem fmtStrings_PersistentDiskSizes :
    fmtStrings PersistentDiskSizes = "[small default medium large]" := by
  decide

theorem fmtStrings_AllowedDBSizes :
    fmtStrings AllowedDBSizes = "[small medium large xlarge 2xlarge 4xlarge]" := by
  decide

theorem sizeListed_eq_false (v : String) (l : List String) (h : v ∉ l) :
    sizeListed v l = false := by
  cases hs : sizeListed v l
  · rfl
  · exact absurd ((sizeListed_iff v l).mp hs) h

/-- C10. Each size rule accepts a value if and only if it is a member of its list, and on
rejection the message quotes the value and lists the valid values in declaration order. The
worker and web rules reach their size check once their earlier checks pass. -/
theorem size_rules (lib : GoLib) (a : Args) :
    (1 ≤ a.WorkerCount →
      (a.WorkerTypeIsSet = true →
        ToLower lib a.IAAS = "aws" ∧ workerTypeRe.MatchString a.WorkerType = true) →
      (validateWorkerFields lib a = Ret.nil ↔ a.WorkerSize ∈ WorkerSizes) ∧
      (a.WorkerSize ∉ WorkerSizes →
        validateWorkerFields lib a =
          Ret.err ("unknown worker size: `" ++ a.WorkerSize ++ "`. Valid sizes are: " ++
            "[medium large xlarge 2xlarge 4xlarge 12xlarge 24xlarge]"))) ∧
    (¬ (a.NoMetricsIsSet = true ∧ a.InfluxDbRetentionIsSet = true) →
      (validateWebFields a = Ret.nil ↔ a.WebSize ∈ WebSizes) ∧
      (a.WebSize ∉ WebSizes →
        validateWebFields a =
          Ret.err ("unknown web node size: `" ++ a.WebSize ++ "`. Valid sizes are: " ++
            "[small medium large xlarge 2xlarge]"))) ∧
    ((validatePersistentDiskFields a = Ret.nil ↔ a.PersistentDiskSize ∈ PersistentDiskSizes) ∧
      (a.PersistentDiskSize ∉ PersistentDiskSizes →
        validatePersistentDiskFields a =
          Ret.err ("unknown persistent disk size: `" ++ a.PersistentDiskSize ++
            "`. Valid sizes are: " ++ "[small default medium large]"))) ∧
    ((validateDBFields a = Ret.nil ↔ a.DBSize ∈ AllowedDBSizes) ∧
      (a.DBSize ∉ AllowedDBSizes →
        validateDBFields a =
          Ret.err ("unknown DB size: `" ++ a.DBSize ++ "`. Valid sizes are: " ++
            "[small medium large xlarge 2xlarge 4xlarge]"))) ∧
    (a.DBSize = "Small" →
      validateDBFields a =
        Ret.err "unknown DB size: `Small`. Valid sizes are: [small medium large xlarge 2xlarge 4xlarge]") := by
  refine ⟨?_, ?_, ?_, ?_, ?_⟩
  · intro hc ht
    have h1 : ¬ a.WorkerCount < 1 := by omega
    have h2 : ¬ (a.WorkerTypeIsSet = true ∧ ToLower lib a.IAAS ≠ "aws") :=
      fun h => h.2 (ht h.1).1
    have h3 : ¬ (a.WorkerTypeIsSet = true ∧ workerTypeRe.MatchString a.WorkerType = false) := by
      intro h
      have := (ht h.1).2
      rw [h.2] at this
      exact absurd this (by decide)
    unfold validateWorkerFields
    simp only [h1, h2, h3, if_false, fmtStrings_WorkerSizes]
    by_cases hm : a.WorkerSize ∈ WorkerSizes
    · simp [hm, (sizeListed_iff _ _).mpr hm]
    · simp [hm, sizeListed_eq_false _ _ hm]
  · intro hw
    unfold validateWebFields
    simp only [hw, if_false, fmtStrings_WebSizes]
    by_cases hm : a.WebSize ∈ WebSizes
    · simp [hm, (sizeListed_iff _ _).mpr hm]
    · simp [hm, sizeListed_eq_false _ _ hm]
  · unfold validatePersistentDiskFields
    simp only [fmtStrings_PersistentDiskSizes]
    by_cases hm : a.PersistentDiskSize ∈ PersistentDiskSizes
    · simp [hm, (sizeListed_iff _ _).mpr hm]
    · simp [hm, sizeListed_eq_false _ _ hm]
  · unfold validateDBFields
    simp only [fmtStrings_AllowedDBSizes]
    by_cases hm : a.DBSize ∈ AllowedDBSizes
    · simp [hm, (sizeListed_iff _ _).mpr hm]
    · simp [hm, sizeListed_eq_false _ _ hm]
  · intro h
    unfold validateDBFields
    rw [h]
    decide

/-- C10 (witness). One worker, no worker type set, and the sizes `huge`, `Small`. -/
theorem size_rules_witness :
    validateWorkerFields plainLib { WorkerCount := 1, WorkerSize := "huge" } =
      Ret.err ("unknown worker size: `" ++ "huge" ++ "`. Valid sizes are: " ++
        "[medium large xlarge 2xlarge 4xlarge 12xlarge 24xlarge]") ∧
    validateDBFields { WorkerCount := 1, WorkerSize := "huge", DBSize := "Small" } =
      Ret.err "unknown DB size: `Small`. Valid sizes are: [small medium large xlarge 2xlarge 4xlarge]" :=
  ⟨((size_rules plainLib { WorkerCount := 1, WorkerSize := "huge" }).1 (by decide)
      (fun h => absurd h (by decide))).2 (by decide),
   (size_rules plainLib { WorkerCount := 1, WorkerSize := "huge", DBSize := "Small" }).2.2.2.2
      rfl⟩


/-! ## The primitive flags as a table -/

theorem forall_mem_cons_intro {α : Type} {p : α → Prop} {x : α} {l : List α}
    (h1 : p x) (h2 : ∀ y ∈ l, p y) : ∀ y ∈ x :: l, p y := by
  intro y hy
  rcases List.mem_cons.mp hy with e | e
  · rw [e]; exact h1
  · exact h2 y e

theorem forall_mem_nil_intro {α : Type} {p : α → Prop} : ∀ y ∈ ([] : List α), p y := by
  intro y hy
  cases hy

set_option maxHeartbeats 1000000 in
/-- A case of the `switch` sets the fields whose names it bears and leaves the other primitive
fields as they are. -/
theorem markFlag_fields (a b : Args) (f : String) (h : markFlag a f = some b) :
    ∀ e ∈ primitiveFlags, e.2 b = (decide (f ∈ e.1) || e.2 a) := by
  unfold markFlag at h
  split at h <;>
    first
    | (simp only [Option.some.injEq] at h; subst h; unfold primitiveFlags
       repeat (first | exact forall_mem_nil_intro | refine forall_mem_cons_intro rfl ?_))
    | simp at h

/-- A case of the `switch` leaves the values and the derived flags as they are. -/
theorem markFlag_frame (a b : Args) (f : String) (h : markFlag a f = some b) :
    clearPrimitive b = clearPrimitive a := by
  unfold markFlag at h
  split at h <;>
    first
    | (simp only [Option.some.injEq] at h; subst h; rfl)
    | simp at h

theorem setDerived_fields (c : FlagSetChecker) (a : Args) :
    ∀ e ∈ primitiveFlags, e.2 (setDerived c a) = e.2 a := by
  unfold primitiveFlags
  repeat (first | exact forall_mem_nil_intro | refine forall_mem_cons_intro rfl ?_)

/-- Two overlays are equal when they agree on the primitive flags of the table and on
everything else: the table and `clearPrimitive` together cover the whole struct. -/
theorem Args_eq_of_fields (a b : Args) (hf : ∀ e ∈ primitiveFlags, e.2 a = e.2 b)
    (hr : clearPrimitive a = clearPrimitive b) : a = b := by
  simp only [primitiveFlags, List.forall_mem_cons, List.not_mem_nil, IsEmpty.forall_iff,
    implies_true, and_true] at hf
  cases a
  cases b
  simp only [clearPrimitive, Args.mk.injEq] at hr ⊢
  simp only at hf
  simp only [hf, hr, and_self]

/-! ## The loop of `MarkSetFlags` -/

/-- The loop never clears a primitive flag. -/
theorem markLoop_mono (lib : GoLib) (c : FlagSetChecker) (names : List String) :
    ∀ a : Args, ∀ e ∈ primitiveFlags, e.2 a = true → e.2 (markLoop lib c names a).1 = true := by
  induction names with
  | nil => intro a e _ h; exact h
  | cons f fs ih =>
    intro a e he h
    simp only [markLoop]
    split
    · split
      · rename_i a1 hm
        apply ih a1 e he
        rw [markFlag_fields a a1 f hm e he, h, Bool.or_true]
      · exact h
    · exact ih a e he h

/-- The loop leaves the values and the derived flags as they are. -/
theorem markLoop_frame (lib : GoLib) (c : FlagSetChecker) (names : List String) :
    ∀ a : Args, clearPrimitive (markLoop lib c names a).1 = clearPrimitive a := by
  induction names with
  | nil => intro a; rfl
  | cons f fs ih =>
    intro a
    simp only [markLoop]
    split
    · split
      · rename_i a1 hm
        rw [ih a1, markFlag_frame a a1 f hm]
      · rfl
    · exact ih a

/-- The loop runs to its end exactly when every name that is set has a case in the
`switch`. -/
theorem markLoop_nil_iff (lib : GoLib) (c : FlagSetChecker) (names : List String) :
    ∀ a : Args, (markLoop lib c names a).2 = Ret.nil ↔
      ∀ g ∈ names, c.IsSet g = true → markFlag a g ≠ none := by
  induction names with
  | nil => intro a; simp [markLoop]
  | cons f fs ih =>
    intro a
    simp only [markLoop, List.mem_cons, forall_eq_or_imp]
    by_cases hs : c.IsSet f = true
    · simp only [hs, if_true, true_implies]
      cases hm : markFlag a f with
      | none => simp
      | some a1 =>
        simp only [ne_eq, not_false_eq_true, true_and, reduceCtorEq]
        rw [ih a1]
        constructor
        · intro h g hg hgs hn
          exact h g hg hgs ((markFlag_eq_none_iff a a1 g).mp hn)
        · intro h g hg hgs hn
          exact h g hg hgs ((markFlag_eq_none_iff a1 a g).mp hn)
    · simp only [hs, if_false, false_implies, true_and, Bool.false_eq_true]
      exact ih a

/-- After a loop that ran to its end, a primitive field is set exactly when it was set
before or one of its names was visited and set. -/
theorem markLoop_fields_of_nil (lib : GoLib) (c : FlagSetChecker) (names : List String) :
    ∀ a : Args, (markLoop lib c names a).2 = Ret.nil →
      ∀ e ∈ primitiveFlags,
        e.2 (markLoop lib c names a).1 =
          (names.any (fun f => c.IsSet f && decide (f ∈ e.1)) || e.2 a) := by
  induction names with
  | nil => intro a _ e _; simp [markLoop]
  | cons f fs ih =>
    intro a h e he
    simp only [markLoop] at h ⊢
    by_cases hs : c.IsSet f = true
    · simp only [hs, if_true] at h ⊢
      cases hm : markFlag a f with
      | none => rw [hm] at h; simp at h
      | some a1 =>
        rw [hm] at h
        simp only at h ⊢
        rw [ih a1 h e he, markFlag_fields a a1 f hm e he]
        simp only [List.any_cons, hs, Bool.true_and]
        cases decide (f ∈ e.1) <;> cases List.any fs (fun f => c.IsSet f && decide (f ∈ e.1)) <;>
          simp
    · simp only [hs, if_false, Bool.false_eq_true] at h ⊢
      rw [ih a h e he]
      have hs1 : c.IsSet f = false := by
        cases hv : c.IsSet f
        · rfl
        · exact absurd hv hs
      simp [List.any_cons, hs1]

/-- An overlay that holds every primitive flag the loop leaves set is left as it is by the
loop, with the same result. -/
theorem markLoop_fixed (lib : GoLib) (c : FlagSetChecker) (names : List String) :
    ∀ a x : Args,
      (∀ e ∈ primitiveFlags, e.2 (markLoop lib c names a).1 = true → e.2 x = true) →
      markLoop lib c names x = (x, (markLoop lib c names a).2) := by
  induction names with
  | nil => intro a x _; rfl
  | cons f fs ih =>
    intro a x hdom
    simp only [markLoop] at hdom ⊢
    by_cases hs : c.IsSet f = true
    · simp only [hs, if_true] at hdom ⊢
      cases hm : markFlag a f with
      | none =>
        rw [(markFlag_eq_none_iff a x f).mp hm]
      | some a1 =>
        rw [hm] at hdom
        simp only at hdom ⊢
        cases hx : markFlag x f with
        | none =>
          have := (markFlag_eq_none_iff x a f).mp hx
          rw [hm] at this
          cases this
        | some x1 =>
          have hx1 : x1 = x := by
            apply Args_eq_of_fields
            · intro e he
              rw [markFlag_fields x x1 f hx e he]
              cases hd : decide (f ∈ e.1)
              · rfl
              · have h1 : e.2 a1 = true := by
                  rw [markFlag_fields a a1 f hm e he, hd]; rfl
                have h2 := hdom e he (markLoop_mono lib c fs a1 e he h1)
                rw [h2]; rfl
            · exact markFlag_frame x x1 f hx
          simp only
          rw [hx1]
          exact ih a1 x hdom
    · simp only [hs, if_false, Bool.false_eq_true] at hdom ⊢
      exact ih a x hdom

theorem MarkSetFlags_of_nil (lib : GoLib) (a a1 : Args) (c : FlagSetChecker)
    (h : markLoop lib c c.FlagNames a = (a1, Ret.nil)) :
    MarkSetFlags lib a c = (setDerived c a1, Ret.nil) := by
  unfold MarkSetFlags
  rw [h]
  rfl

theorem MarkSetFlags_of_ne_nil (lib : GoLib) (a a1 : Args) (c : FlagSetChecker) (r : Ret)
    (h : markLoop lib c c.FlagNames a = (a1, r)) (hr : r ≠ Ret.nil) :
    MarkSetFlags lib a c = (a1, r) := by
  unfold MarkSetFlags
  rw [h]
  cases r with
  | nil => exact absurd rfl hr
  | err m => rfl
  | panic => rfl

/-- C15. `MarkSetFlags` is idempotent: run a second time on the overlay that the first run
left, with the same checker, it leaves that overlay as it is and returns the same result. -/
theorem markSetFlags_idempotent (lib : GoLib) (a : Args) (c : FlagSetChecker) :
    MarkSetFlags lib (MarkSetFlags lib a c).1 c = MarkSetFlags lib a c := by
  rcases hl : markLoop lib c c.FlagNames a with ⟨a1, r⟩
  have hfix := markLoop_fixed lib c c.FlagNames a
  rw [hl] at hfix
  simp only at hfix
  by_cases hr : r = Ret.nil
  · subst hr
    rw [MarkSetFlags_of_nil lib a a1 c hl]
    simp only
    have h2 : markLoop lib c c.FlagNames (setDerived c a1) = (setDerived c a1, Ret.nil) := by
      apply hfix
      intro e he h
      rw [setDerived_fields c a1 e he]
      exact h
    rw [MarkSetFlags_of_nil lib (setDerived c a1) (setDerived c a1) c h2]
    rfl
  · rw [MarkSetFlags_of_ne_nil lib a a1 c r hl hr]
    simp only
    have h2 : markLoop lib c c.FlagNames a1 = (a1, r) := hfix a1 (fun e _ h => h)
    exact MarkSetFlags_of_ne_nil lib a1 a1 c r h2 hr

theorem MarkSetFlags_fields_of_nil (lib : GoLib) (a : Args) (c : FlagSetChecker)
    (h : (MarkSetFlags lib a c).2 = Ret.nil) :
    ∀ e ∈ primitiveFlags,
      e.2 (MarkSetFlags lib a c).1 =
        (c.FlagNames.any (fun f => c.IsSet f && decide (f ∈ e.1)) || e.2 a) := by
  intro e he
  rcases hl : markLoop lib c c.FlagNames a with ⟨a1, r⟩
  have hr : r = Ret.nil := by
    have := MarkSetFlags_snd lib a c
    rw [hl] at this
    exact this.symm.trans h
  subst hr
  rw [MarkSetFlags_of_nil lib a a1 c hl]
  simp only
  rw [setDerived_fields c a1 e he]
  have h1 : (markLoop lib c c.FlagNames a).2 = Ret.nil := by rw [hl]
  have h2 := markLoop_fields_of_nil lib c c.FlagNames a h1 e he
  rw [hl] at h2
  exact h2

theorem MarkSetFlags_mono (lib : GoLib) (a : Args) (c : FlagSetChecker) :
    ∀ e ∈ primitiveFlags, e.2 a = true → e.2 (MarkSetFlags lib a c).1 = true := by
  intro e he h
  rcases hl : markLoop lib c c.FlagNames a with ⟨a1, r⟩
  have h1 := markLoop_mono lib c c.FlagNames a e he h
  rw [hl] at h1
  by_cases hr : r = Ret.nil
  · subst hr
    rw [MarkSetFlags_of_nil lib a a1 c hl]
    simp only
    rw [setDerived_fields c a1 e he]
    exact h1
  · rw [MarkSetFlags_of_ne_nil lib a a1 c r hl hr]
    exact h1

theorem any_set_iff (c : FlagSetChecker) (names l : List String) :
    names.any (fun f => c.IsSet f && decide (f ∈ l)) = true ↔
      ∃ f ∈ names, f ∈ l ∧ c.IsSet f = true := by
  simp only [List.any_eq_true, Bool.and_eq_true, decide_eq_true_eq]
  constructor
  · rintro ⟨f, hf, hs, hl⟩; exact ⟨f, hf, hl, hs⟩
  · rintro ⟨f, hf, hl, hs⟩; exact ⟨f, hf, hs, hl⟩

/-- A primitive field one of whose names is listed and set is set after a successful run. -/
theorem MarkSetFlags_sets (lib : GoLib) (a : Args) (c : FlagSetChecker)
    (h : (MarkSetFlags lib a c).2 = Ret.nil) (e : List String × (Args → Bool))
    (he : e ∈ primitiveFlags) (f : String) (hfe : f ∈ e.1) (hf : f ∈ c.FlagNames)
    (hs : c.IsSet f = true) : e.2 (MarkSetFlags lib a c).1 = true := by
  rw [MarkSetFlags_fields_of_nil lib a c h e he]
  have := (any_set_iff c c.FlagNames e.1).mpr ⟨f, hf, hfe, hs⟩
  rw [this]
  rfl

/-- C11 (counterexample). The checker reports every name as set and lists none: `MarkSetFlags`
returns `nil` and leaves `BitbucketAuthIsSet` true while `BitbucketAuthClientIDIsSet` and
`BitbucketAuthClientSecretIsSet` are false. -/
theorem markSetFlags_derived_without_primitive :
    (MarkSetFlags plainLib {} ⟨fun _ => true, []⟩).2 = Ret.nil ∧
    (MarkSetFlags plainLib {} ⟨fun _ => true, []⟩).1.BitbucketAuthIsSet = true ∧
    (MarkSetFlags plainLib {} ⟨fun _ => true, []⟩).1.BitbucketAuthClientIDIsSet = false ∧
    (MarkSetFlags plainLib {} ⟨fun _ => true, []⟩).1.BitbucketAuthClientSecretIsSet = false ∧
    (MarkSetFlags plainLib {} ⟨fun _ => true, []⟩).1.MainGithubAuthIsSet = true ∧
    (MarkSetFlags plainLib {} ⟨fun _ => true, []⟩).1.MainGithubUsersIsSet = false ∧
    (MarkSetFlags plainLib {} ⟨fun _ => true, []⟩).1.MainGithubTeamsIsSet = false ∧
    (MarkSetFlags plainLib {} ⟨fun _ => true, []⟩).1.MainGithubOrgsIsSet = false := by
  decide

/-- C11 (amended). After `MarkSetFlags` returns without error, for every starting overlay and
every checker whose `FlagNames()` lists each constituent flag name that `IsSet` reports as
set: each AND-derived flag being true implies that both of its constituent primitive fields
of the overlay are true, and `MainGithubAuthIsSet` being true implies that one of
`MainGithubUsersIsSet`, `MainGithubTeamsIsSet`, `MainGithubOrgsIsSet` is true. -/
theorem markSetFlags_derived_implies_primitive (lib : GoLib) (a : Args) (c : FlagSetChecker)
    (h : (MarkSetFlags lib a c).2 = Ret.nil)
    (hl : ∀ f ∈ derivedConstituents, c.IsSet f = true → f ∈ c.FlagNames) :
    ((MarkSetFlags lib a c).1.BitbucketAuthIsSet = true →
      (MarkSetFlags lib a c).1.BitbucketAuthClientIDIsSet = true ∧
      (MarkSetFlags lib a c).1.BitbucketAuthClientSecretIsSet = true) ∧
    ((MarkSetFlags lib a c).1.GithubAuthIsSet = true →
      (MarkSetFlags lib a c).1.GithubAuthClientIDIsSet = true ∧
      (MarkSetFlags lib a c).1.GithubAuthClientSecretIsSet = true) ∧
    ((MarkSetFlags lib a c).1.GithubEnterpriseAuthIsSet = true →
      (MarkSetFlags lib a c).1.GithubAuthHostIsSet = true ∧
      (MarkSetFlags lib a c).1.GithubAuthCaCertIsSet = true) ∧
    ((MarkSetFlags lib a c).1.MicrosoftAuthIsSet = true →
      (MarkSetFlags lib a c).1.MicrosoftAuthClientIDIsSet = true ∧
      (MarkSetFlags lib a c).1.MicrosoftAuthClientSecretIsSet = true) ∧
    ((MarkSetFlags lib a c).1.MainGithubAuthIsSet = true →
      (MarkSetFlags lib a c).1.MainGithubUsersIsSet = true ∨
      (MarkSetFlags lib a c).1.MainGithubTeamsIsSet = true ∨
      (MarkSetFlags lib a c).1.MainGithubOrgsIsSet = true) := by
  have key : ∀ (f : String) (p : Args → Bool), ([f], p) ∈ primitiveFlags →
      f ∈ derivedConstituents → c.IsSet f = true → p (MarkSetFlags lib a c).1 = true := by
    intro f p hp hd hs
    exact MarkSetFlags_sets lib a c h ([f], p) hp f (by simp) (hl f hd hs) hs
  have hder : (MarkSetFlags lib a c).1 = setDerived c (markLoop lib c c.FlagNames a).1 := by
    rcases hm : markLoop lib c c.FlagNames a with ⟨a1, r⟩
    have hr : r = Ret.nil := by
      have := MarkSetFlags_snd lib a c
      rw [hm] at this
      exact this.symm.trans h
    subst hr
    rw [MarkSetFlags_of_nil lib a a1 c hm]
  refine ⟨?_, ?_, ?_, ?_, ?_⟩
  · intro hd
    have hd1 : (c.IsSet "bitbucket-auth-client-id" &&
        c.IsSet "bitbucket-auth-client-secret") = true := by
      rw [hder] at hd; exact hd
    simp only [Bool.and_eq_true] at hd1
    exact ⟨key _ Args.BitbucketAuthClientIDIsSet (by simp [primitiveFlags])
        (by simp [derivedConstituents]) hd1.1,
      key _ Args.BitbucketAuthClientSecretIsSet (by simp [primitiveFlags])
        (by simp [derivedConstituents]) hd1.2⟩
  · intro hd
    have hd1 : (c.IsSet "github-auth-client-id" &&
        c.IsSet "github-auth-client-secret") = true := by
      rw [hder] at hd; exact hd
    simp only [Bool.and_eq_true] at hd1
    exact ⟨key _ Args.GithubAuthClientIDIsSet (by simp [primitiveFlags])
        (by simp [derivedConstituents]) hd1.1,
      key _ Args.GithubAuthClientSecretIsSet (by simp [primitiveFlags])
        (by simp [derivedConstituents]) hd1.2⟩
  · intro hd
    have hd1 : (c.IsSet "github-auth-host" && c.IsSet "github-auth-ca-cert") = true := by
      rw [hder] at hd; exact hd
    simp only [Bool.and_eq_true] at hd1
    exact ⟨key _ Args.GithubAuthHostIsSet (by simp [primitiveFlags])
        (by simp [derivedConstituents]) hd1.1,
      key _ Args.GithubAuthCaCertIsSet (by simp [primitiveFlags])
        (by simp [derivedConstituents]) hd1.2⟩
  · intro hd
    have hd1 : (c.IsSet "microsoft-auth-client-id" &&
        c.IsSet "microsoft-auth-client-secret") = true := by
      rw [hder] at hd; exact hd
    simp only [Bool.and_eq_true] at hd1
    exact ⟨key _ Args.MicrosoftAuthClientIDIsSet (by simp [primitiveFlags])
        (by simp [derivedConstituents]) hd1.1,
      key _ Args.MicrosoftAuthClientSecretIsSet (by simp [primitiveFlags])
        (by simp [derivedConstituents]) hd1.2⟩
  · intro hd
    have hd1 : (c.IsSet "main-team-github-users" || c.IsSet "main-team-github-teams" ||
        c.IsSet "main-team-github-orgs") = true := by
      rw [hder] at hd; exact hd
    simp only [Bool.or_eq_true] at hd1
    rcases hd1 with (hu | ht) | ho
    · exact Or.inl (key _ Args.MainGithubUsersIsSet (by simp [primitiveFlags])
        (by simp [derivedConstituents]) hu)
    · exact Or.inr (Or.inl (key _ Args.MainGithubTeamsIsSet (by simp [primitiveFlags])
        (by simp [derivedConstituents]) ht))
    · exact Or.inr (Or.inr (key _ Args.MainGithubOrgsIsSet (by simp [primitiveFlags])
        (by simp [derivedConstituents]) ho))

/-- C11 (witness). The checker lists and reports as set the two bitbucket flags only. -/
theorem markSetFlags_derived_implies_primitive_witness :
    (MarkSetFlags plainLib {}
        ⟨fun f => f == "bitbucket-auth-client-id" || f == "bitbucket-auth-client-secret",
          ["bitbucket-auth-client-id", "bitbucket-auth-client-secret"]⟩).1.BitbucketAuthIsSet =
      true ∧
    (MarkSetFlags plainLib {}
        ⟨fun f => f == "bitbucket-auth-client-id" || f == "bitbucket-auth-client-secret",
          ["bitbucket-auth-client-id", "bitbucket-auth-client-secret"]⟩).1.BitbucketAuthClientIDIsSet =
      true :=
  ⟨by decide,
   ((markSetFlags_derived_implies_primitive plainLib {}
      ⟨fun f => f == "bitbucket-auth-client-id" || f == "bitbucket-auth-client-secret",
        ["bitbucket-auth-client-id", "bitbucket-auth-client-secret"]⟩ (by decide)
      (by decide)).1 (by decide)).1⟩

/-- C17. `MarkSetFlags` returns an error if and only if some name of `c.FlagNames()` that
`c.IsSet` reports as set has no case in the `switch`, and the error names the first such
name; a name that is not set is never looked up, so that a checker whose names without a
case are all unset is accepted. -/
theorem markSetFlags_error_iff (lib : GoLib) (a : Args) (c : FlagSetChecker) :
    ((∃ msg, (MarkSetFlags lib a c).2 = Ret.err msg) ↔
      ∃ g ∈ c.FlagNames, c.IsSet g = true ∧ markFlag a g = none) ∧
    (∀ f, c.FlagNames.find? (fun g => c.IsSet g && (markFlag a g).isNone) = some f →
      (MarkSetFlags lib a c).2 =
        Ret.err ("flag " ++ Quote lib f ++ " is not supported by deployment flags")) ∧
    ((∀ g ∈ c.FlagNames, markFlag a g = none → c.IsSet g = false) →
      (MarkSetFlags lib a c).2 = Ret.nil) := by
  rw [MarkSetFlags_snd]
  have hnil := markLoop_nil_iff lib c c.FlagNames a
  refine ⟨?_, ?_, ?_⟩
  · constructor
    · rintro ⟨msg, hm⟩
      by_contra hne
      have : (markLoop lib c c.FlagNames a).2 = Ret.nil := by
        rw [hnil]
        intro g hg hs hn
        exact hne ⟨g, hg, hs, hn⟩
      rw [this] at hm
      cases hm
    · rintro ⟨g, hg, hs, hn⟩
      cases hr : (markLoop lib c c.FlagNames a).2 with
      | nil => exact absurd hn (hnil.mp hr g hg hs)
      | err m => exact ⟨m, rfl⟩
      | panic => exact absurd hr (markLoop_ret lib c c.FlagNames a)
  · intro f hf
    exact markLoop_find lib c c.FlagNames a f hf
  · intro h
    rw [hnil]
    intro g hg hs hn
    have := h g hg hn
    rw [hs] at this
    cases this

/-- C17 (witness). The checker lists `iaas` and `not-a-flag`, of which only `iaas` is set. -/
theorem markSetFlags_error_iff_witness :
    markFlag {} "not-a-flag" = none ∧
    (MarkSetFlags plainLib {} ⟨fun f => f == "iaas", ["iaas", "not-a-flag"]⟩).2 = Ret.nil :=
  ⟨by decide,
   (markSetFlags_error_iff plainLib {} ⟨fun f => f == "iaas", ["iaas", "not-a-flag"]⟩).2.2
     (by decide)⟩

theorem isSome_ne_none {α : Type} {o : Option α} (h : o.isSome = true) : o ≠ none := by
  intro e
  rw [e] at h
  cases h

/-- Every name of the table has a case in the `switch`. -/
theorem markFlag_table_isSome (a : Args) :
    ∀ e ∈ primitiveFlags, ∀ f ∈ e.1, (markFlag a f).isSome = true := by
  unfold primitiveFlags
  repeat (first
    | exact forall_mem_nil_intro
    | refine forall_mem_cons_intro
        (by
          dsimp only
          first
          | exact forall_mem_cons_intro rfl forall_mem_nil_intro
          | exact forall_mem_cons_intro rfl (forall_mem_cons_intro rfl forall_mem_nil_intro)) ?_)

/-- Every name with a case in the `switch` is a name of the table. -/
theorem markFlag_table_of_ne_none (a : Args) (f : String) (h : markFlag a f ≠ none) :
    ∃ e ∈ primitiveFlags, f ∈ e.1 := by
  unfold markFlag at h
  split at h <;> first | decide | exact absurd rfl h

/-- The names of the table are exactly the names with a case in the `switch`. -/
theorem markFlag_ne_none_iff (a : Args) (f : String) :
    markFlag a f ≠ none ↔ ∃ e ∈ primitiveFlags, f ∈ e.1 := by
  constructor
  · exact markFlag_table_of_ne_none a f
  · rintro ⟨e, he, hf⟩
    exact isSome_ne_none (markFlag_table_isSome a e he f hf)

/-- The case of a name of the table sets the field of that name. -/
theorem markFlag_table_sets (a : Args) :
    ∀ e ∈ primitiveFlags, ∀ f ∈ e.1, ∃ b, markFlag a f = some b ∧ e.2 b = true := by
  intro e he f hf
  cases hm : markFlag a f with
  | none =>
    have := markFlag_table_isSome a e he f hf
    rw [hm] at this
    cases this
  | some b =>
    refine ⟨b, rfl, ?_⟩
    rw [markFlag_fields a b f hm e he]
    simp [hf]

/-- A checker whose set names are all names of the table makes `MarkSetFlags` succeed. -/
theorem MarkSetFlags_nil_of_table (lib : GoLib) (a : Args) (c : FlagSetChecker)
    (h : ∀ f ∈ c.FlagNames, c.IsSet f = true → ∃ e ∈ primitiveFlags, f ∈ e.1) :
    (MarkSetFlags lib a c).2 = Ret.nil := by
  rw [MarkSetFlags_snd, markLoop_nil_iff]
  intro g hg hs
  exact (markFlag_ne_none_iff a g).mpr (h g hg hs)

/-- C20. After a successful `MarkSetFlags`, each primitive explicitly-set field is true if and
only if it was true in the starting overlay or one of its flag names occurs in
`c.FlagNames()` with `c.IsSet` true (`SpotIsSet` through `spot` and `preemptible`); from an
overlay whose primitive fields are all false each field equals "its flag was listed and
provided"; and no run, successful or not, clears a primitive flag. The flag names of the
fields are exactly the names with a case in the `switch`, the case of a name sets the field
of that name, and a run whose set names are all such names succeeds, so that each field is
reached by each of its names. -/
theorem markSetFlags_primitive (lib : GoLib) (a : Args) (c : FlagSetChecker) :
    ((MarkSetFlags lib a c).2 = Ret.nil →
      (∀ e ∈ primitiveFlags,
        (e.2 (MarkSetFlags lib a c).1 = true ↔
          e.2 a = true ∨ ∃ f ∈ c.FlagNames, f ∈ e.1 ∧ c.IsSet f = true)) ∧
      ((MarkSetFlags lib a c).1.SpotIsSet = true ↔
        a.SpotIsSet = true ∨ ("spot" ∈ c.FlagNames ∧ c.IsSet "spot" = true) ∨
          ("preemptible" ∈ c.FlagNames ∧ c.IsSet "preemptible" = true)) ∧
      ((∀ e ∈ primitiveFlags, e.2 a = false) →
        ∀ e ∈ primitiveFlags,
          (e.2 (MarkSetFlags lib a c).1 = true ↔
            ∃ f ∈ c.FlagNames, f ∈ e.1 ∧ c.IsSet f = true))) ∧
    (∀ e ∈ primitiveFlags, e.2 a = true → e.2 (MarkSetFlags lib a c).1 = true) ∧
    (∀ f : String, markFlag a f ≠ none ↔ ∃ e ∈ primitiveFlags, f ∈ e.1) ∧
    (∀ e ∈ primitiveFlags, ∀ f ∈ e.1, ∃ b, markFlag a f = some b ∧ e.2 b = true) ∧
    ((∀ f ∈ c.FlagNames, c.IsSet f = true → ∃ e ∈ primitiveFlags, f ∈ e.1) →
      (MarkSetFlags lib a c).2 = Ret.nil ∧
      (∀ e ∈ primitiveFlags, ∀ f ∈ e.1, f ∈ c.FlagNames → c.IsSet f = true →
        e.2 (MarkSetFlags lib a c).1 = true) ∧
      ("spot" ∈ c.FlagNames → c.IsSet "spot" = true →
        (MarkSetFlags lib a c).1.SpotIsSet = true) ∧
      ("preemptible" ∈ c.FlagNames → c.IsSet "preemptible" = true →
        (MarkSetFlags lib a c).1.SpotIsSet = true)) := by
  have hsucc : (MarkSetFlags lib a c).2 = Ret.nil →
      ∀ e ∈ primitiveFlags,
        (e.2 (MarkSetFlags lib a c).1 = true ↔
          e.2 a = true ∨ ∃ f ∈ c.FlagNames, f ∈ e.1 ∧ c.IsSet f = true) := by
    intro h e he
    rw [MarkSetFlags_fields_of_nil lib a c h e he, Bool.or_eq_true, any_set_iff]
    exact Or.comm
  refine ⟨?_, MarkSetFlags_mono lib a c, markFlag_ne_none_iff a, markFlag_table_sets a, ?_⟩
  · intro h
    have main := hsucc h
    refine ⟨main, ?_, ?_⟩
    · have hs := main (["spot", "preemptible"], Args.SpotIsSet) (by simp [primitiveFlags])
      simp only at hs
      rw [hs]
      constructor
      · rintro (h1 | ⟨f, hf, hfe, hset⟩)
        · exact Or.inl h1
        · simp only [List.mem_cons, List.mem_singleton, List.not_mem_nil, or_false] at hfe
          rcases hfe with e1 | e1
          · subst e1; exact Or.inr (Or.inl ⟨hf, hset⟩)
          · subst e1; exact Or.inr (Or.inr ⟨hf, hset⟩)
      · rintro (h1 | ⟨hf, hset⟩ | ⟨hf, hset⟩)
        · exact Or.inl h1
        · exact Or.inr ⟨"spot", hf, by simp, hset⟩
        · exact Or.inr ⟨"preemptible", hf, by simp, hset⟩
    · intro h0 e he
      rw [main e he, h0 e he]
      simp
  · intro htab
    have hnil := MarkSetFlags_nil_of_table lib a c htab
    have hreach : ∀ e ∈ primitiveFlags, ∀ f ∈ e.1, f ∈ c.FlagNames → c.IsSet f = true →
        e.2 (MarkSetFlags lib a c).1 = true := by
      intro e he f hfe hf hs
      exact (hsucc hnil e he).mpr (Or.inr ⟨f, hf, hfe, hs⟩)
    refine ⟨hnil, hreach, ?_, ?_⟩
    · intro hf hs
      exact hreach (["spot", "preemptible"], Args.SpotIsSet) (by simp [primitiveFlags])
        "spot" (by simp) hf hs
    · intro hf hs
      exact hreach (["spot", "preemptible"], Args.SpotIsSet) (by simp [primitiveFlags])
        "preemptible" (by simp) hf hs

/-- C20 (witness). From the zero overlay, with all 40 names of the `switch` listed and set:
the run succeeds and every primitive field is set, `SpotIsSet` among them; and with `spot`
alone listed and set, `SpotIsSet` is set through `spot`. -/
theorem markSetFlags_primitive_witness :
    (MarkSetFlags plainLib {} allFlagsChecker).2 = Ret.nil ∧
    (∀ e ∈ primitiveFlags, e.2 (MarkSetFlags plainLib {} allFlagsChecker).1 = true) ∧
    (MarkSetFlags plainLib {} allFlagsChecker).1.SpotIsSet = true ∧
    (MarkSetFlags plainLib {} ⟨fun f => f == "spot", ["iaas", "spot"]⟩).2 = Ret.nil ∧
    (MarkSetFlags plainLib {} ⟨fun f => f == "spot", ["iaas", "spot"]⟩).1.SpotIsSet = true ∧
    (MarkSetFlags plainLib {} ⟨fun f => f == "spot", ["iaas", "spot"]⟩).1.IAASIsSet = false :=
  ⟨((markSetFlags_primitive plainLib {} allFlagsChecker).2.2.2.2 (by decide)).1,
   fun e he =>
    (show ∀ e ∈ primitiveFlags, ∃ f ∈ e.1, f ∈ allFlagsChecker.FlagNames by decide) e he
      |>.elim fun f hf =>
        ((markSetFlags_primitive plainLib {} allFlagsChecker).2.2.2.2 (by decide)).2.1
          e he f hf.1 hf.2 rfl,
   ((markSetFlags_primitive plainLib {} allFlagsChecker).2.2.2.2 (by decide)).2.2.1
      (by decide) rfl,
   ((markSetFlags_primitive plainLib {} ⟨fun f => f == "spot", ["iaas", "spot"]⟩).2.2.2.2
      (by decide)).1,
   ((markSetFlags_primitive plainLib {} ⟨fun f => f == "spot", ["iaas", "spot"]⟩).2.2.2.2
      (by decide)).2.2.1 (by decide) (by decide),
   by decide⟩

/-! ## Users, organizations and tags -/

namespace Regex

theorem matches_cat {r s : Regex} {pre post : Bool} {w : List Char} :
    Matches (cat r s) pre w post ↔
      ∃ u v, w = u ++ v ∧ Matches r pre u (post && v.isEmpty) ∧
        Matches s (pre && u.isEmpty) v post := by
  constructor
  · intro h
    cases h with
    | @cat _ _ u v _ _ h1 h2 => exact ⟨u, v, rfl, h1, h2⟩
  · rintro ⟨u, v, e, h1, h2⟩
    subst e
    exact Matches.cat h1 h2

theorem matches_plus_cls {p : Char → Bool} {pre post : Bool} {w : List Char} :
    Matches (plus (cls p)) pre w post ↔ w ≠ [] ∧ ∀ x ∈ w, p x = true := by
  unfold plus
  rw [matches_cls_cat]
  simp only [matches_star_cls]
  constructor
  · rintro ⟨c, v, e, hc, hv⟩
    subst e
    refine ⟨by simp, ?_⟩
    intro x hx
    simp at hx
    rcases hx with hx | hx
    · subst hx; exact hc
    · exact hv x hx
  · rintro ⟨hne, hw⟩
    cases w with
    | nil => exact absurd rfl hne
    | cons c v => exact ⟨c, v, rfl, hw c (by simp), fun x hx => hw x (by simp [hx])⟩

end Regex

/-- The expression `^[a-zA-Z0-9][a-zA-Z0-9-]*$` is found in a text exactly when the text is a
rune of `[a-zA-Z0-9]` followed only by runes of `[a-zA-Z0-9-]`. -/
theorem userAndOrgRe_MatchString (s : String) :
    userAndOrgRe.MatchString s = true ↔
      ∃ c cs, s.data = c :: cs ∧ alnum c = true ∧ ∀ x ∈ cs, alnumDash x = true := by
  rw [Regex.MatchString_anchored userAndOrgRe
    (fun pre post w h => ⟨(userAndOrgRe_matches.mp h).1, (userAndOrgRe_matches.mp h).2.1⟩)]
  rw [userAndOrgRe_matches]
  simp

theorem userAndOrgRe_FindString_iff (tok : String) :
    userAndOrgRe.FindString (TrimSpace tok) = "" ↔ ¬ ValidUserOrOrg tok := by
  rw [userAndOrgRe_FindString]
  unfold ValidUserOrOrg
  rw [← userAndOrgRe_MatchString]
  simp

theorem validateUsersLoop_nil_iff (lib : GoLib) (l : List String) :
    validateUsersLoop lib l = Ret.nil ↔ ∀ tok ∈ l, ValidUserOrOrg tok := by
  induction l with
  | nil => simp [validateUsersLoop]
  | cons x xs ih =>
    simp only [validateUsersLoop, List.mem_cons, forall_eq_or_imp]
    by_cases hx : userAndOrgRe.FindString (TrimSpace x) = ""
    · have := (userAndOrgRe_FindString_iff x).mp hx
      simp [hx, this]
    · have : ValidUserOrOrg x := by
        by_contra hn
        exact hx ((userAndOrgRe_FindString_iff x).mpr hn)
      simp [hx, this, ih]

theorem validateOrgsLoop_nil_iff (lib : GoLib) (l : List String) :
    validateOrgsLoop lib l = Ret.nil ↔ ∀ tok ∈ l, ValidUserOrOrg tok := by
  induction l with
  | nil => simp [validateOrgsLoop]
  | cons x xs ih =>
    simp only [validateOrgsLoop, List.mem_cons, forall_eq_or_imp]
    by_cases hx : userAndOrgRe.FindString (TrimSpace x) = ""
    · have := (userAndOrgRe_FindString_iff x).mp hx
      simp [hx, this]
    · have : ValidUserOrOrg x := by
        by_contra hn
        exact hx ((userAndOrgRe_FindString_iff x).mpr hn)
      simp [hx, this, ih]

/-- The loop over the users returns the error of its first invalid token. -/
theorem validateUsersLoop_invalid (lib : GoLib) (l : List String)
    (h : ∃ u ∈ l, ¬ ValidUserOrOrg u) :
    ∃ pre tok post, l = pre ++ tok :: post ∧ (∀ u ∈ pre, ValidUserOrOrg u) ∧
      ¬ ValidUserOrOrg tok ∧
      validateUsersLoop lib l =
        Ret.err ("Invalid user " ++ Quote lib tok ++ " provided to --main-team-github-users") := by
  induction l with
  | nil => simp at h
  | cons x xs ih =>
    by_cases hx : ValidUserOrOrg x
    · have h1 : ∃ u ∈ xs, ¬ ValidUserOrOrg u := by
        obtain ⟨u, hu, hn⟩ := h
        simp only [List.mem_cons] at hu
        rcases hu with e | hu
        · subst e; exact absurd hx hn
        · exact ⟨u, hu, hn⟩
      obtain ⟨pre, tok, post, e, hpre, hn, hv⟩ := ih h1
      refine ⟨x :: pre, tok, post, by simp [e], ?_, hn, ?_⟩
      · intro u hu
        simp only [List.mem_cons] at hu
        rcases hu with e1 | hu
        · subst e1; exact hx
        · exact hpre u hu
      · have hf : ¬ userAndOrgRe.FindString (TrimSpace x) = "" := by
          intro hf
          exact (userAndOrgRe_FindString_iff x).mp hf hx
        simp only [validateUsersLoop, hf, if_false]
        exact hv
    · refine ⟨[], x, xs, rfl, by simp, hx, ?_⟩
      have hf := (userAndOrgRe_FindString_iff x).mpr hx
      simp only [validateUsersLoop, hf, if_true]

/-- The loop over the organizations returns the error of its first invalid token. -/
theorem validateOrgsLoop_invalid (lib : GoLib) (l : List String)
    (h : ∃ u ∈ l, ¬ ValidUserOrOrg u) :
    ∃ pre tok post, l = pre ++ tok :: post ∧ (∀ u ∈ pre, ValidUserOrOrg u) ∧
      ¬ ValidUserOrOrg tok ∧
      validateOrgsLoop lib l =
        Ret.err ("Invalid org " ++ Quote lib tok ++ " provided to --main-team-github-orgs") := by
  induction l with
  | nil => simp at h
  | cons x xs ih =>
    by_cases hx : ValidUserOrOrg x
    · have h1 : ∃ u ∈ xs, ¬ ValidUserOrOrg u := by
        obtain ⟨u, hu, hn⟩ := h
        simp only [List.mem_cons] at hu
        rcases hu with e | hu
        · subst e; exact absurd hx hn
        · exact ⟨u, hu, hn⟩
      obtain ⟨pre, tok, post, e, hpre, hn, hv⟩ := ih h1
      refine ⟨x :: pre, tok, post, by simp [e], ?_, hn, ?_⟩
      · intro u hu
        simp only [List.mem_cons] at hu
        rcases hu with e1 | hu
        · subst e1; exact hx
        · exact hpre u hu
      · have hf : ¬ userAndOrgRe.FindString (TrimSpace x) = "" := by
          intro hf
          exact (userAndOrgRe_FindString_iff x).mp hf hx
        simp only [validateOrgsLoop, hf, if_false]
        exact hv
    · refine ⟨[], x, xs, rfl, by simp, hx, ?_⟩
      have hf := (userAndOrgRe_FindString_iff x).mpr hx
      simp only [validateOrgsLoop, hf, if_true]

/-- When rules 1 to 9 pass, `Validate` returns what the gated main-team rule returns. -/
theorem Validate_of_rules_pass (lib : GoLib) (a : Args)
    (h1 : a.IAASIsSet = true) (h2 : validateCertFields a = Ret.nil)
    (h3 : validateWorkerFields lib a = Ret.nil) (h4 : validateWebFields a = Ret.nil)
    (h5 : validatePersistentDiskFields a = Ret.nil) (h6 : validateDBFields a = Ret.nil)
    (h7 : validateGithubFields lib a = Ret.nil) (h8 : validateNetworkRanges a = Ret.nil)
    (h9 : validateTags a = Ret.nil) :
    Validate lib a =
      if a.MainGithubAuthIsSet = true then validateMainAuthFlags lib a else Ret.nil := by
  unfold Validate validateMainAuth
  simp only [h1, h2, h3, h4, h5, h6, h7, h8, h9, Ret.nil_andThen, Ret.andThen_nil_right,
    Bool.true_eq_false, if_false]

/-- C12 (counterexample). The overlay passes rules 1 to 9 and has `MainGithubUsersIsSet` true
with the invalid user token `-bad`, but its `MainGithubAuthIsSet` is false: `Validate`
returns `nil`, not the invalid-user error. -/
theorem validate_users_set_but_not_gated :
    firstFailure ((ruleResults plainLib
      { passingArgs with MainGithubUsersIsSet := true, MainGithubUsers := "-bad" }).take 9) =
        Ret.nil ∧
    Split "-bad" ',' = ["-bad"] ∧
    userAndOrgRe.MatchString (TrimSpace "-bad") = false ∧
    validateMainAuthFlags plainLib
      { passingArgs with MainGithubUsersIsSet := true, MainGithubUsers := "-bad" } =
        Ret.err "Invalid user \"-bad\" provided to --main-team-github-users" ∧
    Validate plainLib
      { passingArgs with MainGithubUsersIsSet := true, MainGithubUsers := "-bad" } = Ret.nil := by
  decide

/-- C12 (amended). For every overlay that passes rules 1 to 9, `Validate` returns the result
of the main-team rule when `MainGithubAuthIsSet` is true and `nil` otherwise: if none of
`MainGithubUsersIsSet`, `MainGithubTeamsIsSet`, `MainGithubOrgsIsSet` is true then `Validate`
returns `nil` whatever the three strings contain; and if `MainGithubAuthIsSet` and
`MainGithubUsersIsSet` are true and some user token is invalid then `Validate` returns the
invalid-user error, for the first invalid token. -/
theorem validate_main_team_gate (lib : GoLib) (a : Args)
    (h1 : a.IAASIsSet = true) (h2 : validateCertFields a = Ret.nil)
    (h3 : validateWorkerFields lib a = Ret.nil) (h4 : validateWebFields a = Ret.nil)
    (h5 : validatePersistentDiskFields a = Ret.nil) (h6 : validateDBFields a = Ret.nil)
    (h7 : validateGithubFields lib a = Ret.nil) (h8 : validateNetworkRanges a = Ret.nil)
    (h9 : validateTags a = Ret.nil) :
    (Validate lib a =
      if a.MainGithubAuthIsSet = true then validateMainAuthFlags lib a else Ret.nil) ∧
    (a.MainGithubUsersIsSet = false → a.MainGithubTeamsIsSet = false →
      a.MainGithubOrgsIsSet = false → Validate lib a = Ret.nil) ∧
    (a.MainGithubAuthIsSet = true → a.MainGithubUsersIsSet = true →
      (∃ u ∈ Split a.MainGithubUsers ',', ¬ ValidUserOrOrg u) →
      ∃ pre tok post, Split a.MainGithubUsers ',' = pre ++ tok :: post ∧
        (∀ u ∈ pre, ValidUserOrOrg u) ∧ ¬ ValidUserOrOrg tok ∧
        Validate lib a =
          Ret.err ("Invalid user " ++ Quote lib tok ++
            " provided to --main-team-github-users")) := by
  have key := Validate_of_rules_pass lib a h1 h2 h3 h4 h5 h6 h7 h8 h9
  refine ⟨key, ?_, ?_⟩
  · intro hu ht ho
    rw [key]
    split
    · simp [validateMainAuthFlags, hu, ht, ho, Ret.andThen]
    · rfl
  · intro hg hu hex
    obtain ⟨pre, tok, post, e, hpre, hn, hv⟩ :=
      validateUsersLoop_invalid lib (Split a.MainGithubUsers ',') hex
    refine ⟨pre, tok, post, e, hpre, hn, ?_⟩
    rw [key, if_pos hg]
    unfold validateMainAuthFlags
    rw [hu, if_pos rfl, hv]
    rfl

/-- C12 (witness). The passing overlay with `MainGithubAuthIsSet` and `MainGithubUsersIsSet`
true and the users `alice,-bad`. -/
theorem validate_main_team_gate_witness :
    ∃ pre tok post, Split "alice,-bad" ',' = pre ++ tok :: post ∧
      (∀ u ∈ pre, ValidUserOrOrg u) ∧ ¬ ValidUserOrOrg tok ∧
      Validate plainLib
        { passingArgs with
            MainGithubAuthIsSet := true, MainGithubUsersIsSet := true,
            MainGithubUsers := "alice,-bad" } =
          Ret.err ("Invalid user " ++ Quote plainLib tok ++
            " provided to --main-team-github-users") :=
  (validate_main_team_gate plainLib
    { passingArgs with
        MainGithubAuthIsSet := true, MainGithubUsersIsSet := true,
        MainGithubUsers := "alice,-bad" }
    (by decide) (by decide) (by decide) (by decide) (by decide) (by decide) (by decide)
    (by decide) (by decide)).2.2 (by decide) (by decide)
    ⟨"-bad", by decide, by
      rw [← userAndOrgRe_FindString_iff]
      decide⟩

/-- C13. `validateMainAuthFlags` returns `nil` exactly when each of the users, organizations
and teams strings that is explicitly set has only valid tokens, a user or organization token
being valid when, trimmed, it matches `^[A-Za-z0-9][A-Za-z0-9-]*$` as a whole. With the
users (organizations) set and a token invalid, the result is the invalid-user (invalid-org)
error of the first invalid token. So an explicitly set empty string, a trailing comma and a
token starting with `-` are rejected, and ` alice , bob-1 ` is accepted. -/
theorem validateMainAuthFlags_users_orgs (lib : GoLib) (a : Args) :
    (validateMainAuthFlags lib a = Ret.nil ↔
      (a.MainGithubUsersIsSet = true → ∀ tok ∈ Split a.MainGithubUsers ',', ValidUserOrOrg tok) ∧
      (a.MainGithubOrgsIsSet = true → ∀ tok ∈ Split a.MainGithubOrgs ',', ValidUserOrOrg tok) ∧
      (a.MainGithubTeamsIsSet = true → ∀ t ∈ Split a.MainGithubTeams ',', ValidOrgTeam t)) ∧
    (a.MainGithubUsersIsSet = true →
      (∃ u ∈ Split a.MainGithubUsers ',', ¬ ValidUserOrOrg u) →
      ∃ pre tok post, Split a.MainGithubUsers ',' = pre ++ tok :: post ∧
        (∀ u ∈ pre, ValidUserOrOrg u) ∧ ¬ ValidUserOrOrg tok ∧
        validateMainAuthFlags lib a =
          Ret.err ("Invalid user " ++ Quote lib tok ++
            " provided to --main-team-github-users")) ∧
    ((a.MainGithubUsersIsSet = true → ∀ tok ∈ Split a.MainGithubUsers ',', ValidUserOrOrg tok) →
      a.MainGithubOrgsIsSet = true →
      (∃ u ∈ Split a.MainGithubOrgs ',', ¬ ValidUserOrOrg u) →
      ∃ pre tok post, Split a.MainGithubOrgs ',' = pre ++ tok :: post ∧
        (∀ u ∈ pre, ValidUserOrOrg u) ∧ ¬ ValidUserOrOrg tok ∧
        validateMainAuthFlags lib a =
          Ret.err ("Invalid org " ++ Quote lib tok ++
            " provided to --main-team-github-orgs")) ∧
    (a.MainGithubUsersIsSet = true →
      (a.MainGithubUsers = "" →
        validateMainAuthFlags lib a =
          Ret.err "Invalid user \"\" provided to --main-team-github-users") ∧
      (a.MainGithubUsers = "alice," →
        validateMainAuthFlags lib a =
          Ret.err "Invalid user \"\" provided to --main-team-github-users") ∧
      (a.MainGithubUsers = "-bob" →
        validateMainAuthFlags lib a =
          Ret.err "Invalid user \"-bob\" provided to --main-team-github-users") ∧
      (a.MainGithubUsers = " alice , bob-1 " → a.MainGithubOrgsIsSet = false →
        a.MainGithubTeamsIsSet = false → validateMainAuthFlags lib a = Ret.nil)) := by
  have hU : (if a.MainGithubUsersIsSet = true then
        validateUsersLoop lib (Split a.MainGithubUsers ',') else Ret.nil) = Ret.nil ↔
      (a.MainGithubUsersIsSet = true →
        ∀ tok ∈ Split a.MainGithubUsers ',', ValidUserOrOrg tok) := by
    by_cases h : a.MainGithubUsersIsSet = true
    · simp only [h, if_true, true_implies]; exact validateUsersLoop_nil_iff lib _
    · simp [h]
  have hO : (if a.MainGithubOrgsIsSet = true then
        validateOrgsLoop lib (Split a.MainGithubOrgs ',') else Ret.nil) = Ret.nil ↔
      (a.MainGithubOrgsIsSet = true →
        ∀ tok ∈ Split a.MainGithubOrgs ',', ValidUserOrOrg tok) := by
    by_cases h : a.MainGithubOrgsIsSet = true
    · simp only [h, if_true, true_implies]; exact validateOrgsLoop_nil_iff lib _
    · simp [h]
  have hT : (if a.MainGithubTeamsIsSet = true then
        validateTeamsLoop lib (Split a.MainGithubTeams ',') else Ret.nil) = Ret.nil ↔
      (a.MainGithubTeamsIsSet = true →
        ∀ t ∈ Split a.MainGithubTeams ',', ValidOrgTeam t) := by
    by_cases h : a.MainGithubTeamsIsSet = true
    · simp only [h, if_true, true_implies]
      rw [validateTeamsLoop_nil_iff]
      constructor
      · intro h1 t ht; exact (validateTeam_nil_iff lib t).mp (h1 t ht)
      · intro h1 t ht; exact (validateTeam_nil_iff lib t).mpr (h1 t ht)
    · simp [h]
  refine ⟨?_, ?_, ?_, ?_⟩
  · unfold validateMainAuthFlags
    rw [Ret.andThen_eq_nil_iff, Ret.andThen_eq_nil_iff, hU, hO, hT]
  · intro hu hex
    obtain ⟨pre, tok, post, e, hpre, hn, hv⟩ :=
      validateUsersLoop_invalid lib (Split a.MainGithubUsers ',') hex
    refine ⟨pre, tok, post, e, hpre, hn, ?_⟩
    unfold validateMainAuthFlags
    rw [hu, if_pos rfl, hv]
    rfl
  · intro hus ho hex
    obtain ⟨pre, tok, post, e, hpre, hn, hv⟩ :=
      validateOrgsLoop_invalid lib (Split a.MainGithubOrgs ',') hex
    refine ⟨pre, tok, post, e, hpre, hn, ?_⟩
    unfold validateMainAuthFlags
    rw [hU.mpr hus, ho, if_pos rfl, hv]
    rfl
  · intro hu
    refine ⟨?_, ?_, ?_, ?_⟩
    · intro hv
      unfold validateMainAuthFlags
      rw [hu, hv]
      rfl
    · intro hv
      unfold validateMainAuthFlags
      rw [hu, hv]
      rfl
    · intro hv
      unfold validateMainAuthFlags
      rw [hu, hv]
      rfl
    · intro hv ho ht
      unfold validateMainAuthFlags
      rw [hu, hv, ho, ht]
      rfl

/-- C13 (witness). The users ` alice , bob-1 ` explicitly set, neither orgs nor teams set. -/
theorem validateMainAuthFlags_users_orgs_witness :
    validateMainAuthFlags plainLib
      { MainGithubUsersIsSet := true, MainGithubUsers := " alice , bob-1 " } = Ret.nil ∧
    validateMainAuthFlags plainLib
      { MainGithubUsersIsSet := true, MainGithubUsers := "alice," } =
        Ret.err "Invalid user \"\" provided to --main-team-github-users" :=
  ⟨((validateMainAuthFlags_users_orgs plainLib
      { MainGithubUsersIsSet := true, MainGithubUsers := " alice , bob-1 " }).2.2.2
        rfl).2.2.2 rfl rfl rfl,
   ((validateMainAuthFlags_users_orgs plainLib
      { MainGithubUsersIsSet := true, MainGithubUsers := "alice," }).2.2.2 rfl).2.1 rfl⟩

/-- C14. `validateNetworkRanges` returns `nil` if and only if `PublicCIDR` and `PrivateCIDR`
are both empty or both non-empty; no well-formedness is checked, so that `not-a-cidr` with
`x` is accepted; and the result depends on no other field of the overlay. -/
theorem validateNetworkRanges_nil_iff (a : Args) :
    (validateNetworkRanges a = Ret.nil ↔
      (a.PublicCIDR = "" ∧ a.PrivateCIDR = "") ∨ (a.PublicCIDR ≠ "" ∧ a.PrivateCIDR ≠ "")) ∧
    (a.PublicCIDR ≠ "" → a.PrivateCIDR ≠ "" → validateNetworkRanges a = Ret.nil) ∧
    (a.PublicCIDR = "not-a-cidr" → a.PrivateCIDR = "x" → validateNetworkRanges a = Ret.nil) ∧
    (∀ b : Args, b.PublicCIDR = a.PublicCIDR → b.PrivateCIDR = a.PrivateCIDR →
      validateNetworkRanges b = validateNetworkRanges a) ∧
    (∀ n r1 r2 : String,
      validateNetworkRanges { a with NetworkCIDR := n, RDS1CIDR := r1, RDS2CIDR := r2 } =
        validateNetworkRanges a) := by
  refine ⟨?_, ?_, ?_, ?_, ?_⟩
  · unfold validateNetworkRanges
    by_cases hp : a.PublicCIDR = "" <;> by_cases hq : a.PrivateCIDR = "" <;> simp [hp, hq]
  · intro hp hq
    simp [validateNetworkRanges, hp, hq]
  · intro hp hq
    rw [validateNetworkRanges, hp, hq]
    decide
  · intro b hp hq
    unfold validateNetworkRanges
    rw [hp, hq]
  · intro n r1 r2
    rfl

/-- C14 (witness). The ranges `not-a-cidr` and `x`. -/
theorem validateNetworkRanges_nil_iff_witness :
    validateNetworkRanges { PublicCIDR := "not-a-cidr", PrivateCIDR := "x" } = Ret.nil :=
  (validateNetworkRanges_nil_iff { PublicCIDR := "not-a-cidr", PrivateCIDR := "x" }).2.2.1
    rfl rfl

theorem webSize_error_ne (x y : String) :
    Ret.err ("unknown web node size: `" ++ x ++ y) ≠
      Ret.err "no-metrics is invalid when used with influxdb-retention-period" := by
  intro h
  injection h with h
  have h1 := congrArg (fun s : String => s.data.head?) h
  simp [String.data_append] at h1

/-- C16. `validateWebFields` returns the mutual-exclusion error exactly when `NoMetricsIsSet`
and `InfluxDbRetentionIsSet` are both true, before any look at the size and whatever the
value of `NoMetrics` is (an explicit `--no-metrics=false` with a retention period is
rejected too); otherwise it returns `nil` if and only if `WebSize` is a member of
`WebSizes`. -/
theorem validateWebFields_cases (a : Args) :
    (validateWebFields a =
        Ret.err "no-metrics is invalid when used with influxdb-retention-period" ↔
      a.NoMetricsIsSet = true ∧ a.InfluxDbRetentionIsSet = true) ∧
    (∀ (v : Bool) (size : String),
      validateWebFields { a with NoMetrics := v, WebSize := size } =
          Ret.err "no-metrics is invalid when used with influxdb-retention-period" ↔
        a.NoMetricsIsSet = true ∧ a.InfluxDbRetentionIsSet = true) ∧
    (∀ v : Bool, validateWebFields { a with NoMetrics := v } = validateWebFields a) ∧
    (¬ (a.NoMetricsIsSet = true ∧ a.InfluxDbRetentionIsSet = true) →
      (validateWebFields a = Ret.nil ↔ a.WebSize ∈ WebSizes)) := by
  have main : ∀ b : Args, (validateWebFields b =
        Ret.err "no-metrics is invalid when used with influxdb-retention-period" ↔
      b.NoMetricsIsSet = true ∧ b.InfluxDbRetentionIsSet = true) := by
    intro b
    unfold validateWebFields
    by_cases h : b.NoMetricsIsSet = true ∧ b.InfluxDbRetentionIsSet = true
    · simp only [h, and_self, if_true]
    · simp only [h, if_false, iff_false]
      split
      · intro hc; cases hc
      · rw [String.append_assoc]
        exact webSize_error_ne _ _
  refine ⟨main a, ?_, ?_, ?_⟩
  · intro v size
    exact main { a with NoMetrics := v, WebSize := size }
  · intro v
    rfl
  · intro h
    unfold validateWebFields
    simp only [h, if_false]
    by_cases hm : a.WebSize ∈ WebSizes
    · simp [hm, (sizeListed_iff _ _).mpr hm]
    · have : sizeListed a.WebSize WebSizes = false := by
        cases hs : sizeListed a.WebSize WebSizes
        · rfl
        · exact absurd ((sizeListed_iff _ _).mp hs) hm
      simp [hm, this]

/-- C16 (witness). An explicit `--no-metrics=false` with a retention period, web size
`small`. -/
theorem validateWebFields_cases_witness :
    validateWebFields
      { NoMetrics := false, NoMetricsIsSet := true, InfluxDbRetentionIsSet := true,
        WebSize := "small" } =
      Ret.err "no-metrics is invalid when used with influxdb-retention-period" :=
  (validateWebFields_cases
    { NoMetrics := false, NoMetricsIsSet := true, InfluxDbRetentionIsSet := true,
      WebSize := "small" }).1.mpr ⟨rfl, rfl⟩

/-- C18. With host, CA cert, client id and client secret all non-empty: if `GithubAuthIsSet`
is false `validateGithubFields` returns the `--github-auth-host` companion error, the id and
secret values notwithstanding; if `GithubAuthIsSet` is true the companion checks pass and
the result is that of the two checks that remain (`nil` when `GithubEnterpriseAuthIsSet` is
false). -/
theorem validateGithubFields_consults_derived (lib : GoLib) (a : Args)
    (hh : a.GithubAuthHost ≠ "") (hc : a.GithubAuthCaCert ≠ "")
    (hi : a.GithubAuthClientID ≠ "") (hs : a.GithubAuthClientSecret ≠ "") :
    (a.GithubAuthIsSet = false →
      validateGithubFields lib a = Ret.err "--github-auth-host requires --github-auth-ca-cert, --github-auth-client-id, --github-auth-client-secret to also be provided") ∧
    (a.GithubAuthIsSet = true →
      validateGithubFields lib a =
        if a.GithubEnterpriseAuthIsSet = true ∧ certParseable lib a = false then
          Ret.err "unable to decode value passed to --github-auth-ca-cert. Provide a CA certificate in PEM format"
        else if a.GithubEnterpriseAuthIsSet = true ∧ lib.isDNSName a.GithubAuthHost = false then
          Ret.err "--github-auth-host must be a valid DNS address (omitting protocol)"
        else Ret.nil) ∧
    (a.GithubAuthIsSet = true → a.GithubEnterpriseAuthIsSet = false →
      validateGithubFields lib a = Ret.nil) := by
  refine ⟨?_, ?_, ?_⟩
  · intro hg
    simp [validateGithubFields, hh, hc, hi, hs, hg]
  · intro hg
    simp [validateGithubFields, hh, hc, hi, hs, hg]
  · intro hg he
    simp [validateGithubFields, hh, hc, hi, hs, hg, he]

/-- C18 (witness). Host, CA cert, id and secret all given, `GithubAuthIsSet` false. -/
theorem validateGithubFields_consults_derived_witness :
    validateGithubFields plainLib
      { GithubAuthHost := "ghe.example.com", GithubAuthCaCert := "cert",
        GithubAuthClientID := "id", GithubAuthClientSecret := "secret" } = Ret.err "--github-auth-host requires --github-auth-ca-cert, --github-auth-client-id, --github-auth-client-secret to also be provided" :=
  (validateGithubFields_consults_derived plainLib
    { GithubAuthHost := "ghe.example.com", GithubAuthCaCert := "cert",
      GithubAuthClientID := "id", GithubAuthClientSecret := "secret" }
    (by decide) (by decide) (by decide) (by decide)).1 rfl

theorem tagRe_matches {pre post : Bool} {w : List Char} :
    Matches tagRe pre w post ↔
      ∃ k v, w = k ++ '=' :: v ∧ (k ≠ [] ∧ ∀ x ∈ k, word x = true) ∧
        (v ≠ [] ∧ ∀ x ∈ v, word x = true) := by
  unfold tagRe
  rw [matches_cat]
  simp only [matches_plus_cls, matches_lit_cat]
  constructor
  · rintro ⟨u, v, e, hu, v1, ev, hv⟩
    subst ev
    exact ⟨u, v1, e, hu, hv⟩
  · rintro ⟨k, v, e, hk, hv⟩
    exact ⟨k, '=' :: v, e, hk, v, rfl, hv⟩

/-- The expression `\w+=\w+` is found in a text exactly when the text holds an `=` between two
word runes. -/
theorem tagRe_MatchString (tag : String) :
    tagRe.MatchString tag = true ↔ HasKeyValue tag := by
  rw [Regex.MatchString_iff]
  unfold HasKeyValue
  constructor
  · rintro ⟨u, w, t, e, h⟩
    obtain ⟨k, v, ew, ⟨hkne, hk⟩, ⟨hvne, hv⟩⟩ := tagRe_matches.mp h
    subst ew
    cases v with
    | nil => exact absurd rfl hvne
    | cons y v1 =>
      refine ⟨u ++ k.dropLast, k.getLast hkne, y, v1 ++ t, ?_,
        hk _ (List.getLast_mem hkne), hv y (by simp)⟩
      rw [e]
      have hkk : k = k.dropLast ++ [k.getLast hkne] := (List.dropLast_append_getLast hkne).symm
      conv_lhs => rw [hkk]
      simp
  · rintro ⟨u, x, y, t, e, hx, hy⟩
    refine ⟨u, [x, '=', y], t, by simp [e], ?_⟩
    rw [tagRe_matches]
    refine ⟨[x], [y], rfl, ⟨by simp, ?_⟩, ⟨by simp, ?_⟩⟩
    · intro z hz; simp at hz; subst hz; exact hx
    · intro z hz; simp at hz; subst hz; exact hy

theorem validateTagsLoop_nil_iff (l : List String) :
    validateTagsLoop l = Ret.nil ↔ ∀ tag ∈ l, tagRe.MatchString tag = true := by
  induction l with
  | nil => simp [validateTagsLoop]
  | cons x xs ih =>
    simp only [validateTagsLoop, List.mem_cons, forall_eq_or_imp]
    cases hm : tagRe.MatchString x with
    | false => simp
    | true => simp [ih]

/-- C19. The tag pattern is unanchored: `validateTags` accepts the tags exactly when each of
them holds, somewhere, an `=` immediately preceded and immediately followed by a word rune
of `[0-9A-Za-z_]`, and a tag is rejected only if it has no such position; so `bad tag=x y`
and `==a=b!!` are accepted. -/
theorem validateTags_unanchored (a : Args) :
    (validateTags a = Ret.nil ↔ ∀ tag ∈ a.Tags, HasKeyValue tag) ∧
    (∀ tag : String,
      validateTags { a with Tags := [tag] } = Ret.nil ↔ HasKeyValue tag) ∧
    (∀ tag : String,
      validateTags { a with Tags := [tag] } =
          Ret.err ("`" ++ tag ++ "` is not in the format `key=value`") ↔
        ¬ HasKeyValue tag) ∧
    (a.Tags = ["bad tag=x y", "==a=b!!"] → validateTags a = Ret.nil) := by
  refine ⟨?_, ?_, ?_, ?_⟩
  · unfold validateTags
    rw [validateTagsLoop_nil_iff]
    constructor
    · intro h tag ht; exact (tagRe_MatchString tag).mp (h tag ht)
    · intro h tag ht; exact (tagRe_MatchString tag).mpr (h tag ht)
  · intro tag
    simp only [validateTags, validateTagsLoop]
    rw [← tagRe_MatchString]
    cases tagRe.MatchString tag <;> simp
  · intro tag
    simp only [validateTags, validateTagsLoop]
    rw [← tagRe_MatchString]
    cases tagRe.MatchString tag <;> simp
  · intro h
    unfold validateTags
    rw [h]
    decide

/-- C19 (witness). The tags `bad tag=x y` and `==a=b!!`. -/
theorem validateTags_unanchored_witness :
    validateTags { Tags := ["bad tag=x y", "==a=b!!"] } = Ret.nil :=
  (validateTags_unanchored { Tags := ["bad tag=x y", "==a=b!!"] }).2.2.2 rfl

/-! ## No read out of range -/

theorem Ret.andThen_ne_panic (r k : Ret) (hr : r ≠ Ret.panic) (hk : k ≠ Ret.panic) :
    r.andThen k ≠ Ret.panic := by
  cases r with
  | nil => exact hk
  | err m => intro h; cases h
  | panic => exact absurd rfl hr

/-- The function `Split` returns at least one piece. -/
theorem Split_cons (s : String) (sep : Char) : ∃ seg rest, Split s sep = seg :: rest := by
  cases hs : Split s sep with
  | nil =>
    have := Split_length s sep
    rw [hs] at this
    simp at this
  | cons seg rest => exact ⟨seg, rest, rfl⟩

/-- The body of the loop over the teams reads no segment out of range. -/
theorem validateTeam_ne_panic (lib : GoLib) (t : String) : validateTeam lib t ≠ Ret.panic := by
  unfold validateTeam
  obtain ⟨p0, rest, hs⟩ := Split_cons t ':'
  rw [hs]
  simp only [List.get?_cons_zero]
  by_cases hl : (p0 :: rest).length ≠ 2
  · rw [if_pos hl]
    intro h; cases h
  · rw [if_neg hl]
    cases rest with
    | nil => simp at hl
    | cons p1 rest1 =>
      simp only [List.get?]
      split
      · intro h; cases h
      · split
        · intro h; cases h
        · intro h; cases h

theorem validateUsersLoop_ne_panic (lib : GoLib) (l : List String) :
    validateUsersLoop lib l ≠ Ret.panic := by
  induction l with
  | nil => intro h; cases h
  | cons x xs ih =>
    simp only [validateUsersLoop]
    split
    · intro h; cases h
    · exact ih

theorem validateOrgsLoop_ne_panic (lib : GoLib) (l : List String) :
    validateOrgsLoop lib l ≠ Ret.panic := by
  induction l with
  | nil => intro h; cases h
  | cons x xs ih =>
    simp only [validateOrgsLoop]
    split
    · intro h; cases h
    · exact ih

theorem validateTeamsLoop_ne_panic (lib : GoLib) (l : List String) :
    validateTeamsLoop lib l ≠ Ret.panic := by
  induction l with
  | nil => intro h; cases h
  | cons x xs ih =>
    simp only [validateTeamsLoop]
    exact Ret.andThen_ne_panic _ _ (validateTeam_ne_panic lib x) ih

/-- C21. `validateMainAuthFlags` returns for every overlay, with `nil` or an error and never
with a read out of range: splitting a team token on `:` always yields a first segment, the
second segment is there whenever the segment count is 2, and a token whose count is not 2 is
answered with an error before the second segment is read. The teams `""`, `","`, `":"` and
`"::"` each yield an error. -/
theorem validateMainAuthFlags_total (lib : GoLib) (a : Args) :
    (validateMainAuthFlags lib a = Ret.nil ∨ ∃ msg, validateMainAuthFlags lib a = Ret.err msg) ∧
    validateMainAuthFlags lib a ≠ Ret.panic ∧
    (∀ tok : String, ∃ seg, (Split tok ':').get? 0 = some seg) ∧
    (∀ tok : String, (Split tok ':').length = 2 → ∃ part1, (Split tok ':').get? 1 = some part1) ∧
    (∀ tok : String, (Split tok ':').length ≠ 2 → ∃ msg, validateTeam lib tok = Ret.err msg) ∧
    (∀ tok : String, validateTeam lib tok ≠ Ret.panic) ∧
    (a.MainGithubUsersIsSet = false → a.MainGithubOrgsIsSet = false →
      a.MainGithubTeamsIsSet = true →
      (a.MainGithubTeams = "" →
        validateMainAuthFlags lib a = Ret.err "Invalid team \"\" does not contain org") ∧
      (a.MainGithubTeams = "," →
        validateMainAuthFlags lib a = Ret.err "Invalid team \"\" does not contain org") ∧
      (a.MainGithubTeams = ":" →
        validateMainAuthFlags lib a =
          Ret.err "Invalid org \"\" provided for team \"\" in --main-team-github-teams") ∧
      (a.MainGithubTeams = "::" →
        validateMainAuthFlags lib a = Ret.err "Invalid team \"\" does not contain org")) := by
  have hp : validateMainAuthFlags lib a ≠ Ret.panic := by
    unfold validateMainAuthFlags
    apply Ret.andThen_ne_panic
    · split
      · exact validateUsersLoop_ne_panic lib _
      · intro h; cases h
    · apply Ret.andThen_ne_panic
      · split
        · exact validateOrgsLoop_ne_panic lib _
        · intro h; cases h
      · split
        · exact validateTeamsLoop_ne_panic lib _
        · intro h; cases h
  refine ⟨?_, hp, ?_, ?_, ?_, validateTeam_ne_panic lib, ?_⟩
  · cases hr : validateMainAuthFlags lib a with
    | nil => exact Or.inl rfl
    | err m => exact Or.inr ⟨m, rfl⟩
    | panic => exact absurd hr hp
  · intro tok
    obtain ⟨seg, rest, hs⟩ := Split_cons tok ':'
    exact ⟨seg, by rw [hs]; rfl⟩
  · intro tok hl
    obtain ⟨seg, rest, hs⟩ := Split_cons tok ':'
    rw [hs] at hl ⊢
    cases rest with
    | nil => simp at hl
    | cons p1 rest1 => exact ⟨p1, rfl⟩
  · intro tok hl
    obtain ⟨seg, rest, _, hv⟩ := validateTeam_malformed lib tok hl
    exact ⟨_, hv⟩
  · intro hu ho ht
    refine ⟨?_, ?_, ?_, ?_⟩
    · intro hv
      unfold validateMainAuthFlags
      rw [hu, ho, ht, hv]
      rfl
    · intro hv
      unfold validateMainAuthFlags
      rw [hu, ho, ht, hv]
      rfl
    · intro hv
      unfold validateMainAuthFlags
      rw [hu, ho, ht, hv]
      rfl
    · intro hv
      unfold validateMainAuthFlags
      rw [hu, ho, ht, hv]
      rfl

/-- C21 (witness). The teams `:` explicitly set, neither users nor orgs set. -/
theorem validateMainAuthFlags_total_witness :
    validateMainAuthFlags plainLib { MainGithubTeamsIsSet := true, MainGithubTeams := ":" } =
      Ret.err "Invalid org \"\" provided for team \"\" in --main-team-github-teams" :=
  ((validateMainAuthFlags_total plainLib
    { MainGithubTeamsIsSet := true, MainGithubTeams := ":" }).2.2.2.2.2.2 rfl rfl rfl).2.2.1 rfl

end Deploy
